import Mathlib

/-!
# dpanel: the container filesystem bridge (`controller.Explorer`)

A shallow embedding of the HTTP handlers of
`src/app/application/http/controller/explorer.go`.

Each handler is a function from its bound request parameters and from the
answers of its collaborators (the container runtime client, the `logic`
explorer, the host file system) to an `Outcome`: the ordered trace of the
collaborator calls the handler makes and the response it writes.  A Go
`error` a collaborator returns is its message string, `nil` is `none`; an
error in a response records whether the handler created it or a collaborator
returned it.  A collaborator called several times in one run (`CopyFromContainer`
in `Export`, the file operations in `Import`) answers by call index.
-/

namespace Dpanel

/-- A Go `error` value, identified with its message. -/
abbrev Error := String

/-- The value `io.EOF`, the error `tar.Reader.Next` returns at the clean end of a stream. -/
def EOF : Error := "EOF"

/-! ## Strings (`strings` package) -/

/-- `strings.HasPrefix(s, p)`. -/
def HasPrefix (s p : String) : Bool := p.toList.isPrefixOf s.toList

/-- `strings.Contains(s, substr)`: some suffix of `s` starts with `substr`. -/
def Contains (s substr : String) : Bool :=
  s.toList.tails.any (fun t => substr.toList.isPrefixOf t)

/-! ## Responses and collaborator calls -/

/-- `container.FilesystemChange`: one record of the runtime's filesystem diff.
`Kind` is a `uint8` (`0` modified, `1` added, `2` deleted). -/
structure FilesystemChange where
  Kind : Nat
  Path : String
deriving DecidableEq, Repr

/-- One mount of `containerInfo.Mounts`; only `Destination` is read by the handlers. -/
structure MountPoint where
  Source : String
  Destination : String
deriving DecidableEq, Repr

/-- Modelled from the spec: the element type of the listing returned by
`explorer.GetListByPath` (package `logic`, file not among the sources).  The
fields are those of the spec's `PathEntry`; the handler reads `Name` and
`Owner` and writes `Change`, `Owner` and `Group`.  The spec says the entries are
"mutated in-place by the enrichment pass (diff status, mount override, owner
resolution)", so the listing is a slice of pointers (as `[]*composeItem` in
`logic/compose.go`): a write through the loop variable `item` and a write through
`result[index]` reach the same entry. -/
structure FileItem where
  Name : String
  Size : String
  Mode : String
  ModTime : String
  Change : Int
  Owner : String
  Group : String
deriving DecidableEq, Repr

/-- Modelled from the spec: one record of `explorer.GetPasswd()` (package `logic`,
file not among the sources), the spec's `IdentityRecord`.  `UID` is compared with
`FileItem.Owner`, so it is a string. -/
structure PasswdItem where
  Username : String
  UID : String
deriving DecidableEq, Repr

/-- The error a handler hands to `self.JsonResponseWithError`: one it creates itself
with `errors.New`, or one a collaborator returned. Errors of different origin are
different values, also when their messages agree. -/
inductive ResponseError where
  /-- `errors.New(msg)`, called by the handler. -/
  | New (msg : String)
  /-- The `err` a collaborator returned. -/
  | returned (err : Error)
deriving DecidableEq, Repr

/-- What a handler writes to the HTTP response. -/
inductive Response where
  /-- `self.Validate` failed: it has answered itself, the handler writes nothing. -/
  | invalid
  /-- `self.JsonResponseWithError(http, err, code)`. -/
  | jsonError (err : ResponseError) (code : Nat)
  /-- `self.JsonSuccessResponse(http)`. -/
  | jsonSuccess
  /-- `self.JsonResponseWithoutError(http, gin.H{"list": result})` of `GetPathList`. -/
  | list (result : List FileItem)
  /-- `self.JsonResponseWithoutError(http, gin.H{"content": string(content)})`. -/
  | content (bytes : List Nat)
  /-- `http.File(name)` with the zip download headers. -/
  | file (name : String)
deriving DecidableEq, Repr

/-- `zip.FileHeader` as `Export` fills it. `Method` is `zip.Deflate` (8). -/
structure ZipHeader where
  Name : String
  Method : Nat
  UncompressedSize64 : Nat
  Modified : Int
deriving DecidableEq, Repr

/-- A call a handler makes to a collaborator, with its arguments. -/
inductive Call where
  | NewExplorer (md5 : String)
  | DeleteFileList (md5 : String) (fileList : List String)
  | Chmod (md5 : String) (fileList : List String) (mod : Int) (hasChildren : Bool)
  | Chown (md5 : String) (fileList : List String) (owner : String) (hasChildren : Bool)
  | ContainerInspect (md5 : String)
  | GetListByPath (md5 path : String)
  | ContainerDiff (md5 : String)
  | GetPasswd (md5 : String)
  | ContainerStatPath (md5 path : String)
  | CopyFromContainer (md5 path : String)
  | CloseStream (path : String)
  | CopyToContainer (md5 destPath tarOf : String)
  | CreateTemp (name : String)
  | Remove (name : String)
  | MkdirTemp (dir : String)
  | RemoveAll (dir : String)
  | MkdirAllDirOf (path : String)
  | WriteFile (path content : String)
  | Open (path : String)
  | Create (path : String)
  | CopyFile (dst src : String)
  | CloseFile (path : String)
  | ArchiveTar (dir : String)
  | CreateHeader (header : ZipHeader)
  | CopyEntry (data : List Nat)
  | ZipClose
  | SendFile (name : String)
deriving DecidableEq, Repr

/-- The result of running a handler: the collaborator calls in order, and the response. -/
structure Outcome where
  trace : List Call
  response : Response
deriving DecidableEq, Repr

/-! ## `Explorer.Delete` (explorer.go, lines 202-233) -/

/-- The bound parameters of `Delete`. -/
structure DeleteParams where
  Md5 : String
  FileList : List String
deriving DecidableEq, Repr

/-- The test of the validation loop of `Delete` on one path. -/
def isDangerousPath (path : String) : Bool :=
  path == "/" || path == "./" || path == "." || Contains path "*"

/-- `Explorer.Delete`. `validate` is the result of `self.Validate(http, &params)`;
`newExplorer` and `deleteFileList` are the answers of `logic.NewExplorer` and
`explorer.DeleteFileList`. -/
def Delete (validate : Bool) (params : DeleteParams)
    (newExplorer : String → Option Error)
    (deleteFileList : String → List String → Option Error) : Outcome :=
  if !validate then ⟨[], .invalid⟩
  else if params.FileList.any isDangerousPath then
    ⟨[], .jsonError (.New "只可以删除指定的文件或是目录") 500⟩
  else
    match newExplorer params.Md5 with
    | some err => ⟨[.NewExplorer params.Md5], .jsonError (.returned err) 500⟩
    | none =>
      match deleteFileList params.Md5 params.FileList with
      | some err =>
        ⟨[.NewExplorer params.Md5, .DeleteFileList params.Md5 params.FileList],
          .jsonError (.returned err) 500⟩
      | none =>
        ⟨[.NewExplorer params.Md5, .DeleteFileList params.Md5 params.FileList],
          .jsonSuccess⟩

/-! ## `Explorer.GetPathList` (explorer.go, lines 235-303) -/

/-- The bound parameters of `GetPathList`. -/
structure PathListParams where
  Md5 : String
  Path : String
deriving DecidableEq, Repr

/-- Modelled from the spec: `function.IsEmptyArray` (package `common/function`, not
among the sources); the spec reads its use as "if the base listing is empty". -/
def IsEmptyArray {α : Type} (v : List α) : Bool := v.isEmpty

/-- The Go map `tempChangeFileList`, a partial function from path to diff record. -/
abbrev ChangeMap := String → Option FilesystemChange

/-- The assignment `tempChangeFileList[change.Path] = change`. -/
def insertChange (m : ChangeMap) (change : FilesystemChange) : ChangeMap :=
  fun key => if key = change.Path then some change else m key

/-- The map after the loop over `changeFileList` (lines 265-271). -/
def buildChangeMap (changeFileList : List FilesystemChange) : ChangeMap :=
  if !IsEmptyArray changeFileList then
    changeFileList.foldl insertChange (fun _ => none)
  else fun _ => none

/-- Lines 279-283: the diff record of the entry's name, when there is one, sets `Change`. -/
def applyChange (tempChangeFileList : ChangeMap) (item : FileItem) : FileItem :=
  match tempChangeFileList item.Name with
  | some change => { item with Change := (change.Kind : Int) }
  | none => item

/-- Lines 285-290: the loop over the mounts, left at the first destination that is a
prefix of the entry's name. -/
def mountLoop : List MountPoint → FileItem → FileItem
  | [], item => item
  | mount :: rest, item =>
    if HasPrefix item.Name mount.Destination then { item with Change := 100 }
    else mountLoop rest item

/-- Lines 284-291. -/
def applyMounts (mounts : List MountPoint) (item : FileItem) : FileItem :=
  if !IsEmptyArray mounts then mountLoop mounts item else item

/-- Lines 292-297: the loop over the identity records; it has no `break`, and each
test reads the owner the entry has at that moment. -/
def applyUsers : List PasswdItem → FileItem → FileItem
  | [], item => item
  | userItem :: rest, item =>
    if userItem.UID = item.Owner then
      applyUsers rest { item with Owner := userItem.Username, Group := userItem.Username }
    else applyUsers rest item

/-- The body of the loop over `result` (lines 278-298) on one entry. -/
def enrichItem (tempChangeFileList : ChangeMap) (mounts : List MountPoint)
    (userList : List PasswdItem) (item : FileItem) : FileItem :=
  applyUsers userList (applyMounts mounts (applyChange tempChangeFileList item))

/-- The collaborators of `GetPathList`. `ContainerDiff` answers with its list and its
error together, since the handler reads the list whatever the error is. -/
structure PathListEnv where
  ContainerInspect : String → Except Error (List MountPoint)
  NewExplorer : String → Option Error
  GetListByPath : String → String → Except Error (List FileItem)
  ContainerDiff : String → List FilesystemChange × Option Error
  GetPasswd : String → Except Error (List PasswdItem)

/-- `Explorer.GetPathList`. -/
def GetPathList (validate : Bool) (params : PathListParams) (env : PathListEnv) : Outcome :=
  if !validate then ⟨[], .invalid⟩
  else
    match env.ContainerInspect params.Md5 with
    | .error err => ⟨[.ContainerInspect params.Md5], .jsonError (.returned err) 500⟩
    | .ok mounts =>
      match env.NewExplorer params.Md5 with
      | some err => ⟨[.ContainerInspect params.Md5, .NewExplorer params.Md5], .jsonError (.returned err) 500⟩
      | none =>
        match env.GetListByPath params.Md5 params.Path with
        | .error err =>
          ⟨[.ContainerInspect params.Md5, .NewExplorer params.Md5,
            .GetListByPath params.Md5 params.Path], .jsonError (.returned err) 500⟩
        | .ok result =>
          if IsEmptyArray result then
            ⟨[.ContainerInspect params.Md5, .NewExplorer params.Md5,
              .GetListByPath params.Md5 params.Path], .list result⟩
          else
            let tempChangeFileList := buildChangeMap (env.ContainerDiff params.Md5).1
            match env.GetPasswd params.Md5 with
            | .error err =>
              ⟨[.ContainerInspect params.Md5, .NewExplorer params.Md5,
                .GetListByPath params.Md5 params.Path, .ContainerDiff params.Md5,
                .GetPasswd params.Md5], .jsonError (.returned err) 500⟩
            | .ok userList =>
              ⟨[.ContainerInspect params.Md5, .NewExplorer params.Md5,
                .GetListByPath params.Md5 params.Path, .ContainerDiff params.Md5,
                .GetPasswd params.Md5],
                .list (result.map (enrichItem tempChangeFileList mounts userList))⟩

/-! ## Tar streams (`archive/tar`) -/

/-- `tar.TypeReg`, the byte `'0'`. -/
def TypeReg : Nat := 48
/-- `tar.TypeRegA`, the byte `'\x00'`. -/
def TypeRegA : Nat := 0
/-- `tar.TypeDir`, the byte `'5'`. -/
def TypeDir : Nat := 53
/-- `tar.TypeGNUSparse`, the byte `'S'`. -/
def TypeGNUSparse : Nat := 83
/-- `tar.TypeSymlink`, the byte `'2'`. -/
def TypeSymlink : Nat := 50
/-- `tar.TypeLink`, the byte `'1'`. -/
def TypeLink : Nat := 49
/-- `tar.TypeChar`, the byte `'3'`. -/
def TypeChar : Nat := 51
/-- `tar.TypeBlock`, the byte `'4'`. -/
def TypeBlock : Nat := 52
/-- `tar.TypeFifo`, the byte `'6'`. -/
def TypeFifo : Nat := 54

/-- One entry of a tar stream: the fields of `tar.Header` the handlers read
(`Size` is an `int64`, `ModTime` a point in time) and the bytes of the entry. -/
structure TarEntry where
  Typeflag : Nat
  Name : String
  Size : Int
  ModTime : Int
  Data : List Nat
deriving DecidableEq, Repr

/-- What a `tar.Reader` yields: the entries for which `Next` returns a header, then
the error with which `Next` ends the stream: `io.EOF` at a clean end, any other
error when reading fails. -/
structure TarStream where
  entries : List TarEntry
  err : Error
deriving DecidableEq, Repr

/-- A header a `tar.Reader` can return: its size is a non-negative `int64`. -/
def validSize (file : TarEntry) : Prop := 0 ≤ file.Size ∧ file.Size < 2 ^ 63

instance (file : TarEntry) : Decidable (validSize file) := by
  unfold validSize; infer_instance

/-- `isHeaderOnlyType` of `archive/tar`: the entry types for which the reader delivers no
byte, whatever the size in the header. -/
def isHeaderOnlyType (typeflag : Nat) : Bool :=
  typeflag == TypeLink || typeflag == TypeSymlink || typeflag == TypeChar ||
    typeflag == TypeBlock || typeflag == TypeDir || typeflag == TypeFifo

/-- What a `tar.Reader` delivers for an entry it reads without error: a header of valid
size and, as data, no byte for a header-only type and as many bytes as the header's size
says for the other types. -/
def carriesItsSize (file : TarEntry) : Prop :=
  validSize file ∧
    file.Data.length = if isHeaderOnlyType file.Typeflag then 0 else file.Size.toNat

instance (file : TarEntry) : Decidable (carriesItsSize file) := by
  unfold carriesItsSize; infer_instance

/-- A tar stream that reads cleanly: every entry is read without error and the stream
ends with `io.EOF`. -/
def readsCleanly (out : TarStream) : Prop :=
  out.err = EOF ∧ ∀ file ∈ out.entries, carriesItsSize file

instance (out : TarStream) : Decidable (readsCleanly out) := by
  unfold readsCleanly; infer_instance

/-! ## `Explorer.GetContent` (explorer.go, lines 305-355) -/

/-- The bound parameters of `GetContent`. -/
structure ContentParams where
  Md5 : String
  File : String
deriving DecidableEq, Repr

/-- `filepath.Base` on a slash-separated path: trailing slashes are stripped, the
last element is kept; `"."` for the empty path, `"/"` for a path of slashes. -/
def filepathBase (path : String) : String :=
  if path = "" then "."
  else
    let stripped := (path.toList.reverse.dropWhile (fun c => c == '/')).reverse
    let last := (stripped.reverse.takeWhile (fun c => c != '/')).reverse
    if last = [] then "/" else String.mk last

/-- `content = make([]byte, file.Size); tarReader.Read(content)` (lines 337-338): a
buffer of `file.Size` zero bytes whose front holds what the one `Read` call delivers, the
first `n` bytes of the entry. `n` is the count that call returns, which the handler
discards: at most the length of the buffer and the bytes the entry has, and fewer when
the stream has not delivered more yet (an `io.Reader` may return a short read). -/
def readInto (file : TarEntry) (n : Nat) : List Nat :=
  file.Data.take (min n file.Size.toNat) ++
    List.replicate (file.Size.toNat - (file.Data.take (min n file.Size.toNat)).length) 0

/-- The loop over the tar entries (lines 326-339); `content` is `none` for the nil
slice. Every matching entry overwrites `content`. `read file` is the count the call
`tarReader.Read(content)` returns on the entry `file`. -/
def contentLoop (base : String) (read : TarEntry → Nat) :
    List TarEntry → Option (List Nat) → Option (List Nat)
  | [], content => content
  | file :: rest, content =>
    if file.Typeflag ≠ TypeReg then contentLoop base read rest content
    else if file.Name ≠ base then contentLoop base read rest content
    else contentLoop base read rest (some (readInto file (read file)))

/-- The collaborators of `GetContent`. `ContainerStatPath` answers with the stat size
and its error; `Read file` is the number of bytes the one call `tarReader.Read(content)`
delivers of the entry `file`; `MatchUnknown content` is
`filetype.Match(content) == filetype.Unknown`. -/
structure ContentEnv where
  ContainerStatPath : String → String → Int × Option Error
  CopyFromContainer : String → String → Except Error TarStream
  Read : TarEntry → Nat
  MatchUnknown : List Nat → Bool

/-- `Explorer.GetContent`. The error of `ContainerStatPath` is overwritten unread (line
319), so only the stat size enters; a failed stat leaves the size at zero. -/
def GetContent (validate : Bool) (params : ContentParams) (env : ContentEnv) : Outcome :=
  if !validate then ⟨[], .invalid⟩
  else if (env.ContainerStatPath params.Md5 params.File).1 ≥ 1024 * 1024 then
    ⟨[.ContainerStatPath params.Md5 params.File],
      .jsonError (.New "超过1M的文件请通过导入&导出修改文件") 500⟩
  else
    match env.CopyFromContainer params.Md5 params.File with
    | .error err =>
      ⟨[.ContainerStatPath params.Md5 params.File,
        .CopyFromContainer params.Md5 params.File], .jsonError (.returned err) 500⟩
    | .ok out =>
      match contentLoop (filepathBase params.File) env.Read out.entries none with
      | none =>
        ⟨[.ContainerStatPath params.Md5 params.File,
          .CopyFromContainer params.Md5 params.File, .CloseStream params.File],
          .jsonError (.New "获取文件失败") 500⟩
      | some content =>
        if env.MatchUnknown content then
          ⟨[.ContainerStatPath params.Md5 params.File,
            .CopyFromContainer params.Md5 params.File, .CloseStream params.File],
            .content content⟩
        else
          ⟨[.ContainerStatPath params.Md5 params.File,
            .CopyFromContainer params.Md5 params.File, .CloseStream params.File],
            .jsonError (.New "文件类型不支持在线编辑") 500⟩

/-! ## `Explorer.Chmod` (explorer.go, lines 357-389) -/

/-- The bound parameters of `Chmod`. -/
structure ChmodParams where
  Md5 : String
  FileList : List String
  Mod : Int
  HasChildren : Bool
  Owner : String
deriving DecidableEq, Repr

/-- The collaborators of `Chmod`: `logic.NewExplorer`, `explorer.Chmod`, `explorer.Chown`. -/
structure ChmodEnv where
  NewExplorer : String → Option Error
  Chmod : String → List String → Int → Bool → Option Error
  Chown : String → List String → String → Bool → Option Error

/-- `Explorer.Chmod`. -/
def Chmod (validate : Bool) (params : ChmodParams) (env : ChmodEnv) : Outcome :=
  if !validate then ⟨[], .invalid⟩
  else
    match env.NewExplorer params.Md5 with
    | some err => ⟨[.NewExplorer params.Md5], .jsonError (.returned err) 500⟩
    | none =>
      match env.Chmod params.Md5 params.FileList params.Mod params.HasChildren with
      | some err =>
        ⟨[.NewExplorer params.Md5,
          .Chmod params.Md5 params.FileList params.Mod params.HasChildren],
          .jsonError (.returned err) 500⟩
      | none =>
        if params.Owner ≠ "" then
          match env.Chown params.Md5 params.FileList params.Owner params.HasChildren with
          | some err =>
            ⟨[.NewExplorer params.Md5,
              .Chmod params.Md5 params.FileList params.Mod params.HasChildren,
              .Chown params.Md5 params.FileList params.Owner params.HasChildren],
              .jsonError (.returned err) 500⟩
          | none =>
            ⟨[.NewExplorer params.Md5,
              .Chmod params.Md5 params.FileList params.Mod params.HasChildren,
              .Chown params.Md5 params.FileList params.Owner params.HasChildren],
              .jsonSuccess⟩
        else
          ⟨[.NewExplorer params.Md5,
            .Chmod params.Md5 params.FileList params.Mod params.HasChildren],
            .jsonSuccess⟩

/-! ## `Explorer.Export` (explorer.go, lines 27-80) -/

/-- The bound parameters of `Export`. -/
structure ExportParams where
  Md5 : String
  FileList : List String
deriving DecidableEq, Repr

/-- The `case` of the switch on `file.Typeflag` (line 58). -/
def isExportedType (typeflag : Nat) : Bool :=
  typeflag == TypeReg || typeflag == TypeRegA || typeflag == TypeDir ||
    typeflag == TypeGNUSparse

/-- The conversion `uint64(file.Size)` of an `int64`. -/
def toUint64 (n : Int) : Nat := (n % 2 ^ 64).toNat

/-- The `zip.FileHeader` built for a tar entry (lines 59-64). -/
def zipHeaderOf (file : TarEntry) : ZipHeader :=
  { Name := file.Name, Method := 8, UncompressedSize64 := toUint64 file.Size,
    Modified := file.ModTime }

/-- The loop over the entries of one tar stream (lines 52-68). It ends when `Next`
returns an error, `io.EOF` or another one alike, so the stream's `err` is not read. -/
def exportEntries : List TarEntry → List Call
  | [] => []
  | file :: rest =>
    if isExportedType file.Typeflag then
      .CreateHeader (zipHeaderOf file) :: .CopyEntry file.Data :: exportEntries rest
    else exportEntries rest

/-- The loop over `params.FileList` (lines 45-70), from the `i`-th call of
`CopyFromContainer` on: the calls made, and the error that ended the loop, if any.
`copyFromContainer i md5 path` is what the `i`-th call answers. -/
def exportLoop (copyFromContainer : Nat → String → String → Except Error TarStream)
    (md5 : String) : Nat → List String → List Call × Option Error
  | _, [] => ([], none)
  | i, path :: rest =>
    match copyFromContainer i md5 path with
    | .error err => ([.CopyFromContainer md5 path], some err)
    | .ok out =>
      let tail := exportLoop copyFromContainer md5 (i + 1) rest
      (.CopyFromContainer md5 path :: (exportEntries out.entries ++ .CloseStream path :: tail.1),
        tail.2)

/-- The collaborators of `Export`: the name `os.CreateTemp` gives the zip file, the
answer of the `i`-th `CopyFromContainer`, and the error of `zipWriter.Close()`. -/
structure ExportEnv where
  CreateTemp : String
  CopyFromContainer : Nat → String → String → Except Error TarStream
  ZipClose : Option Error

/-- `Explorer.Export`. The deferred `os.Remove` is the last call on every path after
`os.CreateTemp`. -/
def Export (validate : Bool) (params : ExportParams) (env : ExportEnv) : Outcome :=
  if !validate then ⟨[], .invalid⟩
  else
    let loop := exportLoop env.CopyFromContainer params.Md5 0 params.FileList
    match loop.2 with
    | some err =>
      ⟨.CreateTemp env.CreateTemp :: (loop.1 ++ [.Remove env.CreateTemp]), .jsonError (.returned err) 500⟩
    | none =>
      match env.ZipClose with
      | some err =>
        ⟨.CreateTemp env.CreateTemp :: (loop.1 ++ [.ZipClose, .Remove env.CreateTemp]),
          .jsonError (.returned err) 500⟩
      | none =>
        ⟨.CreateTemp env.CreateTemp ::
            (loop.1 ++ [.ZipClose, .SendFile env.CreateTemp, .Remove env.CreateTemp]),
          .file env.CreateTemp⟩

/-! ## The zip file written (`archive/zip`) -/

/-- `strings.HasSuffix(s, suffix)`. -/
def HasSuffix (s suffix : String) : Bool := suffix.toList.isSuffixOf s.toList

/-- An entry of the zip file as `zip.Writer` records it: the name, the method (`0` is
`zip.Store`, `8` is `zip.Deflate`), the uncompressed size, the modification time, and the
uncompressed bytes. -/
structure ZipFileEntry where
  Name : String
  Method : Nat
  UncompressedSize64 : Nat
  Modified : Int
  Data : List Nat
deriving DecidableEq, Repr

/-- The entry `zipWriter.CreateHeader(header)` opens. The sizes of `header` are not
kept: `zip.Writer` records the bytes written. A name ending in `/` opens a directory
entry, stored, of size 0; any other name opens an empty file entry of the header's
method. -/
def createEntry (header : ZipHeader) : ZipFileEntry :=
  if HasSuffix header.Name "/" then
    { Name := header.Name, Method := 0, UncompressedSize64 := 0,
      Modified := header.Modified, Data := [] }
  else
    { Name := header.Name, Method := header.Method, UncompressedSize64 := 0,
      Modified := header.Modified, Data := [] }

/-- The entry after `io.Copy(writer, tarReader)` has written `data` to the writer that
`CreateHeader` returned: a file entry holds the bytes and counts them in its size, a
directory entry refuses them (`zip: write to directory`, an error `Export` discards). -/
def writeEntry (e : ZipFileEntry) (data : List Nat) : ZipFileEntry :=
  if HasSuffix e.Name "/" then e
  else { e with Data := e.Data ++ data,
                UncompressedSize64 := e.UncompressedSize64 + data.length }

/-- One call seen by the zip writer; `entries` holds the entries so far, the last one
opened first. `CreateHeader` opens an entry, `CopyEntry` writes into the entry opened
last, any other call leaves the zip writer alone. -/
def zipStep (entries : List ZipFileEntry) : Call → List ZipFileEntry
  | .CreateHeader header => createEntry header :: entries
  | .CopyEntry data =>
    match entries with
    | e :: done => writeEntry e data :: done
    | [] => []
  | _ => entries

/-- The entries of the zip file a run writes, in the order they are written. -/
def zipFile (trace : List Call) : List ZipFileEntry :=
  (trace.foldl zipStep []).reverse

/-! ## `Explorer.ImportFileContent` (explorer.go, lines 82-120) -/

/-- The bound parameters of `ImportFileContent`. -/
structure ImportContentParams where
  File : String
  Content : String
  Md5 : String
  DestPath : String
deriving DecidableEq, Repr

/-- `strings.TrimSuffix(s, suffix)`. -/
def TrimSuffix (s suffix : String) : String :=
  if suffix.toList.isSuffixOf s.toList then
    String.mk (s.toList.take (s.toList.length - suffix.toList.length))
  else s

/-- The collaborators of `ImportFileContent`: the directory `os.MkdirTemp` creates and
the errors of `os.WriteFile` (given the path) and of `CopyToContainer`. -/
structure ImportContentEnv where
  MkdirTemp : String
  WriteFile : String → Option Error
  CopyToContainer : String → String → Option Error

/-- `Explorer.ImportFileContent`. `defer os.RemoveAll(tempFileDir)` stands on line
107, after the return of a failed `os.WriteFile`, so it runs only on the paths that
pass line 107. -/
def ImportFileContent (validate : Bool) (params : ImportContentParams)
    (env : ImportContentEnv) : Outcome :=
  if !validate then ⟨[], .invalid⟩
  else if !HasPrefix params.File "/" || !HasPrefix params.DestPath "/" then
    ⟨[], .jsonError (.New "请指定绝对路径") 500⟩
  else
    let tempFileDir := env.MkdirTemp
    let tempFilePath := TrimSuffix tempFileDir "/" ++ params.File
    match env.WriteFile tempFilePath with
    | some err =>
      ⟨[.MkdirTemp tempFileDir, .MkdirAllDirOf tempFilePath,
        .WriteFile tempFilePath params.Content], .jsonError (.returned err) 500⟩
    | none =>
      match env.CopyToContainer params.Md5 params.DestPath with
      | some err =>
        ⟨[.MkdirTemp tempFileDir, .MkdirAllDirOf tempFilePath,
          .WriteFile tempFilePath params.Content, .ArchiveTar tempFileDir,
          .CopyToContainer params.Md5 params.DestPath tempFileDir,
          .RemoveAll tempFileDir], .jsonError (.returned err) 500⟩
      | none =>
        ⟨[.MkdirTemp tempFileDir, .MkdirAllDirOf tempFilePath,
          .WriteFile tempFilePath params.Content, .ArchiveTar tempFileDir,
          .CopyToContainer params.Md5 params.DestPath tempFileDir,
          .RemoveAll tempFileDir], .jsonSuccess⟩

/-! ## `Explorer.Import` (explorer.go, lines 122-177) -/

/-- One element of the `fileList` parameter of `Import`. -/
structure ImportFile where
  Name : String
  Path : String
deriving DecidableEq, Repr

/-- The bound parameters of `Import`. -/
structure ImportParams where
  Md5 : String
  FileList : List ImportFile
  DestPath : String
deriving DecidableEq, Repr

/-- The collaborators of `Import`: the error of `ContainerInspect`, the directory of
`os.MkdirTemp`, `storage.Local{}.GetRealPath`, the errors of the `i`-th `os.Open`,
`os.Create` and `io.Copy`, and the error of `CopyToContainer`. -/
structure ImportEnv where
  ContainerInspect : String → Option Error
  MkdirTemp : String
  GetRealPath : String → String
  Open : Nat → String → Option Error
  Create : Nat → String → Option Error
  Copy : Nat → String → String → Option Error
  CopyToContainer : String → String → Option Error

/-- The loop over `params.FileList` (lines 142-163) from the `i`-th file on: the calls
made, the deferred calls pending at its end (last registered first, the order they
run in), and the error that ended the loop, if any. -/
def importLoop (env : ImportEnv) (uploadTempDir : String) :
    Nat → List ImportFile → List Call → List Call × List Call × Option Error
  | _, [], deferred => ([], deferred, none)
  | i, item :: rest, deferred =>
    let src := env.GetRealPath item.Path
    match env.Open i src with
    | some err => ([.Open src], deferred, some err)
    | none =>
      let dst := uploadTempDir ++ "/" ++ item.Name
      match env.Create i dst with
      | some err =>
        ([.Open src, .Remove src, .Create dst], .CloseFile src :: deferred, some err)
      | none =>
        match env.Copy i dst src with
        | some err =>
          ([.Open src, .Remove src, .Create dst, .CopyFile dst src],
            .CloseFile dst :: .CloseFile src :: deferred, some err)
        | none =>
          let tail := importLoop env uploadTempDir (i + 1) rest
            (.CloseFile dst :: .CloseFile src :: deferred)
          (.Open src :: .Remove src :: .Create dst :: .CopyFile dst src :: tail.1,
            tail.2.1, tail.2.2)

/-- `Explorer.Import`. `defer os.RemoveAll(uploadTempDir)` is registered first, right
after `os.MkdirTemp`, so it runs last on every return. -/
def Import (validate : Bool) (params : ImportParams) (env : ImportEnv) : Outcome :=
  if !validate then ⟨[], .invalid⟩
  else
    match env.ContainerInspect params.Md5 with
    | some err => ⟨[.ContainerInspect params.Md5], .jsonError (.returned err) 500⟩
    | none =>
      let uploadTempDir := env.MkdirTemp
      let loop := importLoop env uploadTempDir 0 params.FileList [.RemoveAll uploadTempDir]
      match loop.2.2 with
      | some err =>
        ⟨.ContainerInspect params.Md5 :: .MkdirTemp uploadTempDir :: (loop.1 ++ loop.2.1),
          .jsonError (.returned err) 500⟩
      | none =>
        match env.CopyToContainer params.Md5 params.DestPath with
        | some err =>
          ⟨.ContainerInspect params.Md5 :: .MkdirTemp uploadTempDir ::
              (loop.1 ++ .ArchiveTar uploadTempDir ::
                .CopyToContainer params.Md5 params.DestPath uploadTempDir :: loop.2.1),
            .jsonError (.returned err) 500⟩
        | none =>
          ⟨.ContainerInspect params.Md5 :: .MkdirTemp uploadTempDir ::
              (loop.1 ++ .ArchiveTar uploadTempDir ::
                .CopyToContainer params.Md5 params.DestPath uploadTempDir :: loop.2.1),
            .jsonSuccess⟩

/-! ## The owner-resolution pass of `GetPathList` (explorer.go, lines 292-297) -/

/-- The owner-resolution pass over a listing: the loop over the identity records
(lines 292-297), run on every entry of `result` in order. -/
def ownerPass (userList : List PasswdItem) (result : List FileItem) : List FileItem :=
  result.map (applyUsers userList)

/-! ## `PortItem.Parse` (site_env_option.go, lines 30-54) -/

/-- The loop of `strings.Split` for a non-empty separator: the pieces of the text between
the occurrences of `sep`, found left to right without overlap. `skip` counts the
characters of a found separator still to pass, `piece` holds the current piece reversed. -/
def splitLoop (sep : List Char) : List Char → Nat → List Char → List (List Char)
  | [], _, piece => [piece.reverse]
  | _ :: rest, skip + 1, piece => splitLoop sep rest skip piece
  | c :: rest, 0, piece =>
    if sep.isPrefixOf (c :: rest) then
      piece.reverse :: splitLoop sep rest (sep.length - 1) []
    else splitLoop sep rest 0 (c :: piece)

/-- `strings.Split(s, sep)`: with an empty separator the characters of `s`, otherwise
the pieces of `s` between the occurrences of `sep`. -/
def Split (s sep : String) : List String :=
  if sep = "" then s.toList.map (fun c => String.singleton c)
  else (splitLoop sep.toList s.toList 0 []).map String.mk

/-- `accessor.PortItem`. -/
structure PortItem where
  HostIp : String
  Host : String
  Dest : String
  Protocol : String
deriving DecidableEq, Repr

/-- `PortItem.Parse`. The result is `none` when an index expression `temp[0]` or
`temp[1]` is out of range, where Go panics. -/
def PortItem.Parse (self : PortItem) : Option PortItem :=
  let newValue : PortItem :=
    { HostIp := self.HostIp, Host := self.Host, Dest := self.Dest, Protocol := self.Protocol }
  let afterHost : Option PortItem :=
    if Contains self.Host ":" then
      let temp := Split self.Host ":"
      match temp[0]?, temp[1]? with
      | some hostIp, some host => some { newValue with HostIp := hostIp, Host := host }
      | _, _ => none
    else some newValue
  match afterHost with
  | none => none
  | some newValue =>
    if newValue.Protocol = "" then some { newValue with Protocol := "tcp" }
    else some newValue

/-! ## Statements about the enrichment pass -/

/-- The last record of the diff whose path is `name`: the record the map
`tempChangeFileList` holds for `name` after the loop of lines 268-270. -/
def diffRecord (changeFileList : List FilesystemChange) (name : String) :
    Option FilesystemChange :=
  (changeFileList.filter (fun change => change.Path = name)).getLast?

/-- The change status of a returned entry `out` against the base entry `item` it comes
from: `mounted` (100) when a mount destination is a prefix of the name; otherwise the
kind of the diff record of the name when the diff has one, and the original status when
it has none. -/
def ChangeStatusRule (mounts : List MountPoint) (changeFileList : List FilesystemChange)
    (item out : FileItem) : Prop :=
  out.Name = item.Name ∧
  ((∃ mount ∈ mounts, mount.Destination.toList <+: item.Name.toList) → out.Change = 100) ∧
  ((¬ ∃ mount ∈ mounts, mount.Destination.toList <+: item.Name.toList) →
    (∀ change, diffRecord changeFileList item.Name = some change →
      out.Change = (change.Kind : Int)) ∧
    ((∀ change ∈ changeFileList, change.Path ≠ item.Name) → out.Change = item.Change))

/-- The owner and group of a returned entry `out` against the base entry `item` it
comes from: unchanged when no record has the owner as uid; the username of the record
`u` when `u` is the one record with the owner as uid and no record after `u` has that
username as uid. -/
def OwnerRule (userList : List PasswdItem) (item out : FileItem) : Prop :=
  ((∀ u ∈ userList, u.UID ≠ item.Owner) →
    out.Owner = item.Owner ∧ out.Group = item.Group) ∧
  (∀ before u after, userList = before ++ u :: after → u.UID = item.Owner →
    (∀ v ∈ before ++ after, v.UID ≠ item.Owner) → (∀ v ∈ after, v.UID ≠ u.Username) →
    out.Owner = u.Username ∧ out.Group = u.Username)

/-- The entry `GetContent` looks for: a regular file (`tar.TypeReg`) whose name is
the base name of the requested path. -/
def isWanted (base : String) (file : TarEntry) : Bool :=
  file.Typeflag == TypeReg && file.Name == base

/-- A runtime that answers as `env` does, every tar stream ending cleanly (`io.EOF`). -/
def withCleanEnd (env : ExportEnv) : ExportEnv :=
  { env with
    CopyFromContainer := fun i md5 path =>
      match env.CopyFromContainer i md5 path with
      | .error err => .error err
      | .ok out => .ok { out with err := EOF } }

/-- A written zip entry `e` keeps the name, the size and the modification time of the
tar entry `file`, and holds its bytes. -/
def KeepsEntry (file : TarEntry) (e : ZipFileEntry) : Prop :=
  e.Name = file.Name ∧ (e.UncompressedSize64 : Int) = file.Size ∧
    e.Modified = file.ModTime ∧ e.Data = file.Data

/-- In a tar stream that archives a file tree, a directory entry and an entry whose name
ends in `/` have size 0 in their header. -/
def directoriesHaveNoSize (out : TarStream) : Prop :=
  ∀ file ∈ out.entries,
    (file.Typeflag = TypeDir ∨ HasSuffix file.Name "/" = true) → file.Size = 0

instance (out : TarStream) : Decidable (directoriesHaveNoSize out) := by
  unfold directoriesHaveNoSize; infer_instance

/-- The tar entries that are a regular file, a directory or a GNU sparse file, of the
streams in order, each stream in stream order. -/
def regularDirSparse (outs : List TarStream) : List TarEntry :=
  (outs.map (fun out => out.entries.filter (fun file =>
    decide (file.Typeflag = TypeReg ∨ file.Typeflag = TypeRegA ∨ file.Typeflag = TypeDir ∨
      file.Typeflag = TypeGNUSparse)))).flatten

/-! ## Concrete runs -/

/-- A base entry with the given name, change status and numeric owner. -/
def entry (name : String) (change : Int) (owner : String) : FileItem :=
  { Name := name, Size := "4.0K", Mode := "-rw-r--r--", ModTime := "2024-05-01 10:00:00",
    Change := change, Owner := owner, Group := owner }

/-- A runtime with one mount at `/data`, a listing of three entries, a diff with a
record for two of them, and the identity record `(33, www-data)`. -/
def sampleEnv : PathListEnv :=
  { ContainerInspect := fun _ => .ok [⟨"/host/data", "/data"⟩],
    NewExplorer := fun _ => none,
    GetListByPath := fun _ _ =>
      .ok [entry "/data/a" 0 "33", entry "/etc/hosts" 0 "9999", entry "/usr/x" 0 "0"],
    ContainerDiff := fun _ => ([⟨1, "/data/a"⟩, ⟨2, "/etc/hosts"⟩], none),
    GetPasswd := fun _ => .ok [⟨"www-data", "33"⟩] }

/-- A runtime whose identity database has records of two usernames with uid `0`. -/
def duplicateUidEnv : PathListEnv :=
  { ContainerInspect := fun _ => .ok [],
    NewExplorer := fun _ => none,
    GetListByPath := fun _ _ => .ok [entry "/root" 0 "0"],
    ContainerDiff := fun _ => ([], none),
    GetPasswd := fun _ => .ok [⟨"root", "0"⟩, ⟨"toor", "0"⟩, ⟨"root", "0"⟩] }

/-- The sample runtime with a failing filesystem-diff fetch. -/
def diffFailsEnv : PathListEnv :=
  { sampleEnv with ContainerDiff := fun _ => ([], some "diff: connection reset") }

/-- The sample runtime with a failing identity fetch. -/
def passwdFailsEnv : PathListEnv :=
  { sampleEnv with GetPasswd := fun _ => .error "exec: cat /etc/passwd failed" }

/-- A content sniffer that knows the PNG signature `89 50 4E 47` only. -/
def sniffPng (content : List Nat) : Bool := !(content.take 4 == [0x89, 0x50, 0x4E, 0x47])

/-- A runtime holding the file `/etc/hosts` (the two bytes `hi`), answering a stat with
the given size and delivering a whole entry in one `Read`. -/
def contentEnv (size : Int) : ContentEnv :=
  { ContainerStatPath := fun _ _ => (size, none),
    CopyFromContainer := fun _ _ => .ok ⟨[⟨TypeReg, "hosts", 2, 1714550400, [104, 105]⟩], EOF⟩,
    Read := fun file => file.Data.length,
    MatchUnknown := sniffPng }

/-- A runtime holding the file `/etc/hosts` of six bytes, `hello` and a newline, whose
stream delivers three bytes to a `Read` call. -/
def shortReadEnv : ContentEnv :=
  { ContainerStatPath := fun _ _ => (6, none),
    CopyFromContainer := fun _ _ =>
      .ok ⟨[⟨TypeReg, "hosts", 6, 1714550400, [104, 101, 108, 108, 111, 10]⟩], EOF⟩,
    Read := fun _ => 3,
    MatchUnknown := sniffPng }

/-- A runtime on which every call succeeds. -/
def chmodEnv : ChmodEnv :=
  { NewExplorer := fun _ => none,
    Chmod := fun _ _ _ _ => none,
    Chown := fun _ _ _ _ => none }

/-- The tar stream of `/var/log`: a directory, a file, a symlink. -/
def logStream : TarStream :=
  ⟨[⟨TypeDir, "log/", 0, 1714550400, []⟩, ⟨TypeReg, "log/a.txt", 2, 1714550401, [104, 105]⟩,
    ⟨TypeSymlink, "log/latest", 0, 1714550402, []⟩], EOF⟩

/-- The tar stream of `/etc/hosts`: one file. -/
def hostsStream : TarStream := ⟨[⟨TypeReg, "hosts", 2, 1714550403, [104, 105]⟩], EOF⟩

/-- A runtime that copies out `/var/log` and `/etc/hosts`, and fails on any other path. -/
def exportEnv : ExportEnv :=
  { CreateTemp := "/tmp/dpanel1",
    CopyFromContainer := fun _ _ path =>
      if path = "/var/log" then .ok logStream
      else if path = "/etc/hosts" then .ok hostsStream
      else .error "no such file",
    ZipClose := none }

/-- A runtime whose tar stream of `/var/cache` holds one directory entry with size 4096
in its header, as some archivers write it. -/
def directorySizeEnv : ExportEnv :=
  { CreateTemp := "/tmp/dpanel1",
    CopyFromContainer := fun _ _ _ => .ok ⟨[⟨TypeDir, "cache/", 4096, 1714550400, []⟩], EOF⟩,
    ZipClose := none }

/-- A runtime whose tar stream of `/var/log` breaks after the first two entries. -/
def brokenStreamEnv : ExportEnv :=
  { CreateTemp := "/tmp/dpanel1",
    CopyFromContainer := fun _ _ _ =>
      .ok ⟨[⟨TypeDir, "log/", 0, 1714550400, []⟩,
        ⟨TypeReg, "log/a.txt", 2, 1714550401, [104, 105]⟩], "unexpected EOF"⟩,
    ZipClose := none }

/-- A host on which the staged file cannot be written: the requested file is `/`, so
the staged path is the staging directory itself and `os.WriteFile` fails on it. -/
def writeFailsEnv : ImportContentEnv :=
  { MkdirTemp := "/tmp/dpanel-explorer1",
    WriteFile := fun path =>
      if path = "/tmp/dpanel-explorer1/" then
        some "open /tmp/dpanel-explorer1/: is a directory"
      else none,
    CopyToContainer := fun _ _ => none }

/-- An identity set in which the username `1001` of uid `1000` is itself the uid of the
user `app`. -/
def chainedUsers : List PasswdItem := [⟨"app", "1001"⟩, ⟨"1001", "1000"⟩]

/-! # Theorems -/

/-! ## C1: the deletion guard -/

/-- A list has a suffix starting with the one character `c` exactly when it holds `c`. -/
lemma any_tails_singleton (c : Char) (l : List Char) :
    l.tails.any (fun t => [c].isPrefixOf t) = true ↔ c ∈ l := by
  induction l with
  | nil => simp [List.isPrefixOf]
  | cons a l ih =>
    simp only [List.tails, List.any_cons, Bool.or_eq_true, ih, List.mem_cons]
    simp [List.isPrefixOf]

/-- `strings.Contains(path, "*")` holds exactly when `path` holds the character `*`. -/
lemma Contains_star (path : String) : Contains path "*" = true ↔ '*' ∈ path.toList := by
  unfold Contains
  exact any_tails_singleton '*' path.toList

/-- The test of the validation loop, spelled out. -/
lemma isDangerousPath_iff (path : String) :
    isDangerousPath path = true ↔
      (path = "/" ∨ path = "./" ∨ path = "." ∨ '*' ∈ path.toList) := by
  unfold isDangerousPath
  simp only [Bool.or_eq_true, beq_iff_eq, Contains_star]
  tauto

/-- C1, as amended: a batch holding a path equal to `/`, `./` or `.`, or holding the
wildcard `*`, is rejected with an error (status 500) and the handler makes no call at
all, so `DeleteFileList` is never invoked; a batch with no such path passes the
validation loop, after which `DeleteFileList` is invoked with the full, unchanged list
when `logic.NewExplorer` succeeds, and is not invoked, the handler answering that
error, when `logic.NewExplorer` fails. -/
theorem Delete_guard (params : DeleteParams) (newExplorer : String → Option Error)
    (deleteFileList : String → List String → Option Error) :
    ((∃ path ∈ params.FileList,
          path = "/" ∨ path = "./" ∨ path = "." ∨ '*' ∈ path.toList) →
        (Delete true params newExplorer deleteFileList).response =
            .jsonError (.New "只可以删除指定的文件或是目录") 500 ∧
        (Delete true params newExplorer deleteFileList).trace = []) ∧
    ((¬ ∃ path ∈ params.FileList,
          path = "/" ∨ path = "./" ∨ path = "." ∨ '*' ∈ path.toList) →
        (newExplorer params.Md5 = none →
          (Delete true params newExplorer deleteFileList).trace =
            [.NewExplorer params.Md5, .DeleteFileList params.Md5 params.FileList]) ∧
        (∀ err, newExplorer params.Md5 = some err →
          (Delete true params newExplorer deleteFileList).response = .jsonError (.returned err) 500 ∧
          (Delete true params newExplorer deleteFileList).trace =
            [.NewExplorer params.Md5])) := by
  have key : params.FileList.any isDangerousPath = true ↔
      ∃ path ∈ params.FileList,
        path = "/" ∨ path = "./" ∨ path = "." ∨ '*' ∈ path.toList := by
    simp only [List.any_eq_true, isDangerousPath_iff]
  refine ⟨fun h => ?_, fun h => ⟨fun hn => ?_, fun err he => ?_⟩⟩
  · have h1 := key.mpr h
    simp [Delete, h1]
  · have h1 : params.FileList.any isDangerousPath = false := by
      rw [← Bool.not_eq_true, key]; exact h
    simp only [Delete, h1, hn]
    cases deleteFileList params.Md5 params.FileList <;> simp
  · have h1 : params.FileList.any isDangerousPath = false := by
      rw [← Bool.not_eq_true, key]; exact h
    simp [Delete, h1, he]

/-- C1, witness: the batch `["/", "a/*"]` is rejected and nothing is removed. -/
theorem Delete_guard_witness :
    (Delete true ⟨"c1", ["/", "a/*"]⟩ (fun _ => none) (fun _ _ => none)).response =
        .jsonError (.New "只可以删除指定的文件或是目录") 500 ∧
      (Delete true ⟨"c1", ["/", "a/*"]⟩ (fun _ => none) (fun _ _ => none)).trace = [] :=
  (Delete_guard ⟨"c1", ["/", "a/*"]⟩ (fun _ => none) (fun _ _ => none)).1
    ⟨"/", by simp, Or.inl rfl⟩

/-- C1, counterexample: the batch `["/tmp/a"]` holds no dangerous path, yet with a
failing `logic.NewExplorer` the handler answers its error and `DeleteFileList` is not
invoked. -/
theorem Delete_not_invoked_when_explorer_fails :
    (List.any ["/tmp/a"] isDangerousPath = false) ∧
      (Delete true ⟨"c1", ["/tmp/a"]⟩ (fun _ => some "no such container")
          (fun _ _ => none)).response = .jsonError (.returned "no such container") 500 ∧
      Call.DeleteFileList "c1" ["/tmp/a"] ∉
        (Delete true ⟨"c1", ["/tmp/a"]⟩ (fun _ => some "no such container")
          (fun _ _ => none)).trace := by
  decide

/-! ## C2: the change status of a listed entry -/

/-- The owner pass leaves the name alone. -/
lemma applyUsers_Name (userList : List PasswdItem) (item : FileItem) :
    (applyUsers userList item).Name = item.Name := by
  induction userList generalizing item with
  | nil => rfl
  | cons u rest ih =>
    unfold applyUsers
    split <;> simp [ih]

/-- The owner pass leaves the change status alone. -/
lemma applyUsers_Change (userList : List PasswdItem) (item : FileItem) :
    (applyUsers userList item).Change = item.Change := by
  induction userList generalizing item with
  | nil => rfl
  | cons u rest ih =>
    unfold applyUsers
    split <;> simp [ih]

/-- `strings.HasPrefix` is the prefix relation on the characters. -/
lemma HasPrefix_iff (s p : String) : HasPrefix s p = true ↔ p.toList <+: s.toList := by
  unfold HasPrefix
  exact List.isPrefixOf_iff_prefix

/-- The mount loop leaves the name alone. -/
lemma mountLoop_Name (mounts : List MountPoint) (item : FileItem) :
    (mountLoop mounts item).Name = item.Name := by
  induction mounts with
  | nil => rfl
  | cons m rest ih =>
    unfold mountLoop
    split <;> simp [ih]

/-- The mount loop sets `Change` to 100 when some destination is a prefix of the name. -/
lemma mountLoop_mounted (mounts : List MountPoint) (item : FileItem)
    (h : ∃ mount ∈ mounts, mount.Destination.toList <+: item.Name.toList) :
    (mountLoop mounts item).Change = 100 := by
  induction mounts with
  | nil => simp at h
  | cons m rest ih =>
    unfold mountLoop
    by_cases hm : HasPrefix item.Name m.Destination = true
    · simp [hm]
    · simp only [hm]
      apply ih
      obtain ⟨mount, hmem, hp⟩ := h
      rcases List.mem_cons.mp hmem with rfl | hmem
      · exact absurd ((HasPrefix_iff _ _).mpr hp) hm
      · exact ⟨mount, hmem, hp⟩

/-- The mount loop changes nothing when no destination is a prefix of the name. -/
lemma mountLoop_unmounted (mounts : List MountPoint) (item : FileItem)
    (h : ¬ ∃ mount ∈ mounts, mount.Destination.toList <+: item.Name.toList) :
    mountLoop mounts item = item := by
  induction mounts with
  | nil => rfl
  | cons m rest ih =>
    unfold mountLoop
    have hm : ¬ HasPrefix item.Name m.Destination = true := fun hp =>
      h ⟨m, List.mem_cons_self _ _, (HasPrefix_iff _ _).mp hp⟩
    simp only [hm]
    exact ih (fun ⟨mount, hmem, hp⟩ => h ⟨mount, List.mem_cons_of_mem _ hmem, hp⟩)

/-- The guard `!function.IsEmptyArray(containerInfo.Mounts)` changes nothing. -/
lemma applyMounts_eq (mounts : List MountPoint) (item : FileItem) :
    applyMounts mounts item = mountLoop mounts item := by
  cases mounts <;> simp [applyMounts, IsEmptyArray, mountLoop]

/-- The fold that builds the map, read at one key: the last record of that path,
or what the map held before. -/
lemma foldl_insertChange (changeFileList : List FilesystemChange) (m : ChangeMap)
    (name : String) :
    changeFileList.foldl insertChange m name =
      (diffRecord changeFileList name).or (m name) := by
  induction changeFileList generalizing m with
  | nil => simp [diffRecord]
  | cons c rest ih =>
    rw [List.foldl_cons, ih]
    unfold diffRecord insertChange
    by_cases hc : c.Path = name
    · subst hc
      simp only [List.filter_cons, decide_True, if_true]
      cases hr : List.filter (fun change => decide (change.Path = c.Path)) rest with
      | nil => simp
      | cons d ds =>
        simp only [List.getLast?_cons_cons]
        rw [List.getLast?_eq_getLast _ (List.cons_ne_nil d ds)]
        rfl
    · have hn : ¬ name = c.Path := fun h => hc h.symm
      simp [List.filter_cons, hc, hn]

/-- The map `tempChangeFileList` holds, for each name, the last diff record of that path. -/
lemma buildChangeMap_eq (changeFileList : List FilesystemChange) (name : String) :
    buildChangeMap changeFileList name = diffRecord changeFileList name := by
  unfold buildChangeMap
  cases changeFileList with
  | nil => simp [IsEmptyArray, diffRecord]
  | cons c rest =>
    simp only [IsEmptyArray, List.isEmpty_cons, Bool.not_false, if_true]
    rw [foldl_insertChange]
    simp

/-- The diff has no record for a name exactly when no record has that path. -/
lemma diffRecord_eq_none (changeFileList : List FilesystemChange) (name : String) :
    diffRecord changeFileList name = none ↔ ∀ change ∈ changeFileList, change.Path ≠ name := by
  unfold diffRecord
  rw [List.getLast?_eq_none_iff, List.filter_eq_nil_iff]
  simp

/-- The body of the enrichment loop obeys the change-status rule on every entry. -/
lemma enrichItem_ChangeStatusRule (changeFileList : List FilesystemChange)
    (mounts : List MountPoint) (userList : List PasswdItem) (item : FileItem) :
    ChangeStatusRule mounts changeFileList item
      (enrichItem (buildChangeMap changeFileList) mounts userList item) := by
  unfold ChangeStatusRule enrichItem
  rw [applyUsers_Name, applyUsers_Change, applyMounts_eq, mountLoop_Name]
  have hname : (applyChange (buildChangeMap changeFileList) item).Name = item.Name := by
    unfold applyChange; split <;> rfl
  refine ⟨hname, fun h => ?_, fun h => ⟨fun change hc => ?_, fun hnone => ?_⟩⟩
  · exact mountLoop_mounted _ _ (by rw [hname]; exact h)
  · rw [mountLoop_unmounted _ _ (by rw [hname]; exact h)]
    unfold applyChange
    rw [buildChangeMap_eq, hc]
  · rw [mountLoop_unmounted _ _ (by rw [hname]; exact h)]
    unfold applyChange
    rw [buildChangeMap_eq, (diffRecord_eq_none _ _).mpr hnone]

/-- What `GetPathList` answers on a non-empty base listing when it answers a list:
the base listing with the loop body applied to each entry. -/
lemma GetPathList_list (params : PathListParams) (env : PathListEnv)
    (result L : List FileItem)
    (hbase : env.GetListByPath params.Md5 params.Path = .ok result)
    (hne : result ≠ [])
    (hresp : (GetPathList true params env).response = .list L) :
    ∃ mounts userList, env.ContainerInspect params.Md5 = .ok mounts ∧
      env.GetPasswd params.Md5 = .ok userList ∧
      L = result.map
        (enrichItem (buildChangeMap (env.ContainerDiff params.Md5).1) mounts userList) := by
  have hemp : IsEmptyArray result = false := by
    cases result with
    | nil => exact absurd rfl hne
    | cons a l => rfl
  unfold GetPathList at hresp
  simp only [Bool.not_true, Bool.false_eq_true, if_false] at hresp
  cases hmounts : env.ContainerInspect params.Md5 with
  | error err => simp [hmounts] at hresp
  | ok mounts =>
    cases hexp : env.NewExplorer params.Md5 with
    | some err => simp [hmounts, hexp] at hresp
    | none =>
      simp only [hmounts, hexp, hbase, hemp, Bool.false_eq_true, if_false] at hresp
      cases hpw : env.GetPasswd params.Md5 with
      | error err => simp [hpw] at hresp
      | ok userList =>
        simp only [hpw, Response.list.injEq] at hresp
        exact ⟨mounts, userList, rfl, rfl, hresp.symm⟩

/-- C2: for every non-empty base listing, diff result and mount list, the list
`GetPathList` returns matches the base listing entry by entry, and each returned entry
whose name has a mount destination as a prefix has change status 100 (mounted), whether or
not the diff has a record for the name; an entry prefixed by no mount destination has the
kind of the diff record of its name when the diff has one, and its original change status
when it has none. -/
theorem GetPathList_change_status (params : PathListParams) (env : PathListEnv)
    (mounts : List MountPoint) (result L : List FileItem)
    (hmounts : env.ContainerInspect params.Md5 = .ok mounts)
    (hbase : env.GetListByPath params.Md5 params.Path = .ok result)
    (hne : result ≠ [])
    (hresp : (GetPathList true params env).response = .list L) :
    List.Forall₂ (ChangeStatusRule mounts (env.ContainerDiff params.Md5).1) result L := by
  obtain ⟨mounts', userList, hm, -, rfl⟩ := GetPathList_list params env result L hbase hne hresp
  obtain rfl : mounts' = mounts := by
    rw [hmounts] at hm
    exact (Except.ok.inj hm).symm
  rw [List.forall₂_map_right_iff, List.forall₂_same]
  intro item _
  exact enrichItem_ChangeStatusRule _ _ userList item

/-- C2, witness: with a mount at `/data`, the entry `/data/a` is mounted although the
diff has a record for it, `/etc/hosts` takes its diff kind, `/usr/x` keeps its status. -/
theorem GetPathList_change_status_witness :
    (GetPathList true ⟨"c1", "/"⟩ sampleEnv).response =
        .list [entry "/data/a" 100 "www-data", entry "/etc/hosts" 2 "9999",
          entry "/usr/x" 0 "0"] ∧
      List.Forall₂
        (ChangeStatusRule [⟨"/host/data", "/data"⟩] [⟨1, "/data/a"⟩, ⟨2, "/etc/hosts"⟩])
        [entry "/data/a" 0 "33", entry "/etc/hosts" 0 "9999", entry "/usr/x" 0 "0"]
        [entry "/data/a" 100 "www-data", entry "/etc/hosts" 2 "9999", entry "/usr/x" 0 "0"] :=
  ⟨by decide,
    GetPathList_change_status ⟨"c1", "/"⟩ sampleEnv _ _ _ rfl rfl (by decide) (by decide)⟩

/-! ## C3: owner resolution -/

/-- The owner pass changes nothing when no record has the owner as uid. -/
lemma applyUsers_no_record (userList : List PasswdItem) (item : FileItem)
    (h : ∀ u ∈ userList, u.UID ≠ item.Owner) : applyUsers userList item = item := by
  induction userList with
  | nil => rfl
  | cons u rest ih =>
    unfold applyUsers
    have hu : ¬ u.UID = item.Owner := h u (List.mem_cons_self _ _)
    simp only [hu, if_false]
    exact ih (fun v hv => h v (List.mem_cons_of_mem _ hv))

/-- The owner pass over a concatenation is the pass over the parts, in order. -/
lemma applyUsers_append (before after : List PasswdItem) (item : FileItem) :
    applyUsers (before ++ after) item = applyUsers after (applyUsers before item) := by
  induction before generalizing item with
  | nil => rfl
  | cons u rest ih =>
    simp only [List.cons_append, applyUsers]
    split <;> exact ih _

/-- The owner pass obeys the owner rule on every entry. -/
lemma applyUsers_OwnerRule (userList : List PasswdItem) (item : FileItem) :
    OwnerRule userList item (applyUsers userList item) := by
  refine ⟨fun h => ?_, fun before u after hl hu hothers hchain => ?_⟩
  · rw [applyUsers_no_record _ _ h]
    exact ⟨rfl, rfl⟩
  · subst hl
    have hb : ∀ v ∈ before, v.UID ≠ item.Owner := fun v hv =>
      hothers v (List.mem_append_left _ hv)
    rw [applyUsers_append, applyUsers_no_record _ _ hb]
    simp only [applyUsers, hu, if_true]
    rw [applyUsers_no_record _ _ (by simpa using hchain)]
    exact ⟨rfl, rfl⟩

/-- The diff and mount steps leave owner and group alone. -/
lemma applyMounts_applyChange_owner (m : ChangeMap) (mounts : List MountPoint)
    (item : FileItem) :
    (applyMounts mounts (applyChange m item)).Owner = item.Owner ∧
      (applyMounts mounts (applyChange m item)).Group = item.Group := by
  have h1 : (applyChange m item).Owner = item.Owner ∧ (applyChange m item).Group = item.Group := by
    unfold applyChange; split <;> exact ⟨rfl, rfl⟩
  have h2 : ∀ it : FileItem, (mountLoop mounts it).Owner = it.Owner ∧
      (mountLoop mounts it).Group = it.Group := by
    intro it
    induction mounts with
    | nil => exact ⟨rfl, rfl⟩
    | cons mt rest ih =>
      unfold mountLoop
      split
      · exact ⟨rfl, rfl⟩
      · exact ih
  rw [applyMounts_eq]
  exact ⟨(h2 _).1.trans h1.1, (h2 _).2.trans h1.2⟩

/-- The body of the enrichment loop obeys the owner rule on every entry. -/
lemma enrichItem_OwnerRule (m : ChangeMap) (mounts : List MountPoint)
    (userList : List PasswdItem) (item : FileItem) :
    OwnerRule userList item (enrichItem m mounts userList item) := by
  have h := applyUsers_OwnerRule userList (applyMounts mounts (applyChange m item))
  have ho := applyMounts_applyChange_owner m mounts item
  unfold OwnerRule at h ⊢
  rw [ho.1, ho.2] at h
  exact h

/-- C3, as amended: for every non-empty listing and every identity set, after the
enrichment pass of `GetPathList` an entry whose owner equals the uid of exactly one
record, whose username is not the uid of a later record, has both its owner and its
group replaced by that record's username, and an entry whose owner equals no record's
uid keeps its owner and group unchanged. -/
theorem GetPathList_owner_resolution (params : PathListParams) (env : PathListEnv)
    (userList : List PasswdItem) (result L : List FileItem)
    (husers : env.GetPasswd params.Md5 = .ok userList)
    (hbase : env.GetListByPath params.Md5 params.Path = .ok result)
    (hne : result ≠ [])
    (hresp : (GetPathList true params env).response = .list L) :
    List.Forall₂ (OwnerRule userList) result L := by
  obtain ⟨mounts, userList', -, hu, rfl⟩ :=
    GetPathList_list params env result L hbase hne hresp
  obtain rfl : userList' = userList := by
    rw [husers] at hu
    exact (Except.ok.inj hu).symm
  rw [List.forall₂_map_right_iff, List.forall₂_same]
  intro item _
  exact enrichItem_OwnerRule _ _ _ item

/-- C3, witness: with the record `(uid = 33, username = www-data)`, owner `33` becomes
`www-data` (and so does the group), owner `9999` stays `9999`. -/
theorem GetPathList_owner_resolution_witness :
    (GetPathList true ⟨"c1", "/"⟩ sampleEnv).response =
        .list [entry "/data/a" 100 "www-data", entry "/etc/hosts" 2 "9999",
          entry "/usr/x" 0 "0"] ∧
      List.Forall₂ (OwnerRule [⟨"www-data", "33"⟩])
        [entry "/data/a" 0 "33", entry "/etc/hosts" 0 "9999", entry "/usr/x" 0 "0"]
        [entry "/data/a" 100 "www-data", entry "/etc/hosts" 2 "9999", entry "/usr/x" 0 "0"] :=
  ⟨by decide,
    GetPathList_owner_resolution ⟨"c1", "/"⟩ sampleEnv _ _ _ rfl rfl (by decide) (by decide)⟩

/-- C3, counterexample: the identity set holds records `(uid = 0, root)` and
`(uid = 0, toor)`; the entry's owner `0` equals the uid of the record `toor`, yet its
owner and group become `root`, not `toor`. -/
theorem GetPathList_owner_duplicate_uid :
    (⟨"toor", "0"⟩ : PasswdItem) ∈
        [(⟨"root", "0"⟩ : PasswdItem), ⟨"toor", "0"⟩, ⟨"root", "0"⟩] ∧
      (⟨"toor", "0"⟩ : PasswdItem).UID = (entry "/root" 0 "0").Owner ∧
      (GetPathList true ⟨"c1", "/"⟩ duplicateUidEnv).response =
        .list [entry "/root" 0 "root"] := by
  decide

/-! ## C7: failing enrichment fetches -/

/-- C7, as amended: for every non-empty base listing (the container and the explorer
being available), `GetPathList` returns a successful listing whatever error the
filesystem-diff fetch reports, the records that fetch returned being the diff data (with
none returned, no diff status is applied); when the identity fetch `GetPasswd` fails,
the handler answers that error with status 500 and returns no listing. -/
theorem GetPathList_subfetch_errors (params : PathListParams) (env : PathListEnv)
    (mounts : List MountPoint) (result : List FileItem)
    (hmounts : env.ContainerInspect params.Md5 = .ok mounts)
    (hexp : env.NewExplorer params.Md5 = none)
    (hbase : env.GetListByPath params.Md5 params.Path = .ok result)
    (hne : result ≠ []) :
    (∀ userList, env.GetPasswd params.Md5 = .ok userList →
      (GetPathList true params env).response =
          .list (result.map
            (enrichItem (buildChangeMap (env.ContainerDiff params.Md5).1) mounts userList)) ∧
      ((env.ContainerDiff params.Md5).1 = [] →
        (GetPathList true params env).response =
          .list (result.map (fun item => applyUsers userList (applyMounts mounts item))))) ∧
    (∀ err, env.GetPasswd params.Md5 = .error err →
      (GetPathList true params env).response = .jsonError (.returned err) 500) := by
  have hemp : IsEmptyArray result = false := by
    cases result with
    | nil => exact absurd rfl hne
    | cons a l => rfl
  refine ⟨fun userList hu => ?_, fun err he => ?_⟩
  · have h1 : (GetPathList true params env).response =
        .list (result.map
          (enrichItem (buildChangeMap (env.ContainerDiff params.Md5).1) mounts userList)) := by
      simp [GetPathList, hmounts, hexp, hbase, hemp, hu]
    refine ⟨h1, fun hd => ?_⟩
    rw [h1, hd]
    rfl
  · simp [GetPathList, hmounts, hexp, hbase, hemp, he]

/-- C7, witness: with a failing diff fetch the sample listing is still returned, mount
status and owners resolved, no diff status applied. -/
theorem GetPathList_subfetch_errors_witness :
    (GetPathList true ⟨"c1", "/"⟩ diffFailsEnv).response =
      .list [entry "/data/a" 100 "www-data", entry "/etc/hosts" 0 "9999",
        entry "/usr/x" 0 "0"] := by
  have h := ((GetPathList_subfetch_errors ⟨"c1", "/"⟩ diffFailsEnv _ _ rfl rfl rfl
    (by decide)).1 _ rfl).2 rfl
  rw [h]
  decide

/-- C7, counterexample: the base listing is non-empty and `GetPasswd` fails; the handler
answers the error of `GetPasswd` with status 500 instead of a listing. -/
theorem GetPathList_fails_when_passwd_fails :
    passwdFailsEnv.GetListByPath "c1" "/" =
        .ok [entry "/data/a" 0 "33", entry "/etc/hosts" 0 "9999", entry "/usr/x" 0 "0"] ∧
      passwdFailsEnv.GetPasswd "c1" = .error "exec: cat /etc/passwd failed" ∧
      (GetPathList true ⟨"c1", "/"⟩ passwdFailsEnv).response =
        .jsonError (.returned "exec: cat /etc/passwd failed") 500 :=
  ⟨rfl, rfl, by decide⟩

/-! ## C4: the size limit of `GetContent` -/

/-- C4: when the stat result has a size of at least 1,048,576 bytes, `GetContent` answers
the size-limit error after the stat call alone, `CopyFromContainer` is never invoked; when
the size is below 1,048,576 bytes the size-limit error is not the answer and
`CopyFromContainer` is invoked on the requested file. -/
theorem GetContent_size_limit (params : ContentParams) (env : ContentEnv) :
    ((env.ContainerStatPath params.Md5 params.File).1 ≥ 1048576 →
      (GetContent true params env).response =
          .jsonError (.New "超过1M的文件请通过导入&导出修改文件") 500 ∧
      (GetContent true params env).trace = [.ContainerStatPath params.Md5 params.File] ∧
      ∀ md5 path, Call.CopyFromContainer md5 path ∉ (GetContent true params env).trace) ∧
    ((env.ContainerStatPath params.Md5 params.File).1 < 1048576 →
      (GetContent true params env).response ≠
          .jsonError (.New "超过1M的文件请通过导入&导出修改文件") 500 ∧
      Call.CopyFromContainer params.Md5 params.File ∈ (GetContent true params env).trace) := by
  refine ⟨fun h => ?_, fun h => ?_⟩
  · have h1 : (env.ContainerStatPath params.Md5 params.File).1 ≥ 1024 * 1024 := h
    unfold GetContent
    simp only [Bool.not_true, Bool.false_eq_true, if_false]
    rw [if_pos h1]
    simp
  · have h1 : ¬ (env.ContainerStatPath params.Md5 params.File).1 ≥ 1024 * 1024 := by
      have : (1024 : Int) * 1024 = 1048576 := by norm_num
      omega
    unfold GetContent
    simp only [Bool.not_true, Bool.false_eq_true, if_false]
    rw [if_neg h1]
    split
    · simp
    · split
      · refine ⟨?_, by simp⟩
        show Response.jsonError (.New "获取文件失败") 500 ≠ _
        decide
      · split
        · simp
        · refine ⟨?_, by simp⟩
          show Response.jsonError (.New "文件类型不支持在线编辑") 500 ≠ _
          decide

/-- C4, witness: a stat size of exactly 1,048,576 bytes gives the size-limit error and
the trace holds the stat call only. -/
theorem GetContent_size_limit_witness :
    (GetContent true ⟨"c1", "/etc/hosts"⟩ (contentEnv 1048576)).response =
        .jsonError (.New "超过1M的文件请通过导入&导出修改文件") 500 ∧
      (GetContent true ⟨"c1", "/etc/hosts"⟩ (contentEnv 1048576)).trace =
        [.ContainerStatPath "c1" "/etc/hosts"] :=
  have h := (GetContent_size_limit ⟨"c1", "/etc/hosts"⟩ (contentEnv 1048576)).1 (by decide)
  ⟨h.1, h.2.1⟩

/-! ## C5: `Chown` follows a successful `Chmod` -/

/-- C5: in `Explorer.Chmod`, a `Chown` call is made if and only if `Chmod` was called
and returned no error and the owner parameter is non-empty; when a `Chown` call is made
the trace is the explorer creation, then `Chmod`, then `Chown` with the same container,
file list and recursive flag, and no `Chown` call is made with other arguments. -/
theorem Chmod_then_Chown (params : ChmodParams) (env : ChmodEnv) :
    ((∃ md5 fileList owner hasChildren,
          Call.Chown md5 fileList owner hasChildren ∈ (Chmod true params env).trace) ↔
        (Call.Chmod params.Md5 params.FileList params.Mod params.HasChildren ∈
            (Chmod true params env).trace ∧
          env.Chmod params.Md5 params.FileList params.Mod params.HasChildren = none ∧
          params.Owner ≠ "")) ∧
    (∀ md5 fileList owner hasChildren,
        Call.Chown md5 fileList owner hasChildren ∈ (Chmod true params env).trace →
        (md5 = params.Md5 ∧ fileList = params.FileList ∧ owner = params.Owner ∧
          hasChildren = params.HasChildren) ∧
        (Chmod true params env).trace =
          [.NewExplorer params.Md5,
            .Chmod params.Md5 params.FileList params.Mod params.HasChildren,
            .Chown params.Md5 params.FileList params.Owner params.HasChildren]) := by
  simp only [Chmod, Bool.not_true, Bool.false_eq_true, if_false]
  cases env.NewExplorer params.Md5 with
  | some err => simp
  | none =>
    cases hch : env.Chmod params.Md5 params.FileList params.Mod params.HasChildren with
    | some err => simp
    | none =>
      by_cases ho : params.Owner = ""
      · simp [ho]
      · simp only [ne_eq, ho, not_false_eq_true, if_true]
        cases env.Chown params.Md5 params.FileList params.Owner params.HasChildren <;>
          simp [ho]

/-- C5, witness: with an owner given and a successful `Chmod`, `Chown` is the third call. -/
theorem Chmod_then_Chown_witness :
    (Chmod true ⟨"c1", ["/srv/app"], 755, true, "www-data"⟩ chmodEnv).trace =
      [.NewExplorer "c1", .Chmod "c1" ["/srv/app"] 755 true,
        .Chown "c1" ["/srv/app"] "www-data" true] :=
  ((Chmod_then_Chown ⟨"c1", ["/srv/app"], 755, true, "www-data"⟩ chmodEnv).2
    "c1" ["/srv/app"] "www-data" true (by decide)).2

/-! ## C10: the entry `GetContent` reads -/

/-- The loop over the tar entries ends with the buffer read from the last wanted entry,
or with the content it started from when there is no wanted entry. -/
lemma contentLoop_eq (base : String) (read : TarEntry → Nat) (entries : List TarEntry)
    (content : Option (List Nat)) :
    contentLoop base read entries content =
      (((entries.filter (isWanted base)).getLast?).map
        (fun file => readInto file (read file))).or content := by
  induction entries generalizing content with
  | nil => simp [contentLoop]
  | cons file rest ih =>
    unfold contentLoop
    by_cases ht : file.Typeflag = TypeReg
    · by_cases hn : file.Name = base
      · have hw : isWanted base file = true := by simp [isWanted, ht, hn]
        simp only [ht, hn, ne_eq, not_true_eq_false, if_false, ih, List.filter_cons, hw, if_true]
        cases hr : List.filter (isWanted base) rest with
        | nil => simp
        | cons d ds =>
          simp only [List.getLast?_cons_cons]
          rw [List.getLast?_eq_getLast _ (List.cons_ne_nil d ds)]
          rfl
      · have hw : isWanted base file = false := by simp [isWanted, hn]
        simp only [ht, hn, ne_eq, not_true_eq_false, not_false_eq_true, if_false, if_true, ih,
          List.filter_cons, hw, Bool.false_eq_true]
    · have hw : isWanted base file = false := by simp [isWanted, ht]
      simp only [ht, ne_eq, not_false_eq_true, if_true, ih, List.filter_cons, hw,
        Bool.false_eq_true, if_false]

/-- A buffer of `Size` bytes holds the entry's bytes when the entry has `Size` bytes and
the one `Read` call delivers them all. -/
lemma readInto_full (file : TarEntry) (n : Nat) (h : file.Data.length = file.Size.toNat)
    (hn : file.Size.toNat ≤ n) : readInto file n = file.Data := by
  unfold readInto
  rw [Nat.min_eq_right hn, ← h]
  simp

/-- What `GetContent` does for a file under the size limit whose copy-out returns a tar
stream: when no entry of the stream is a regular file named as the base name of the
requested path, it answers the fetch-failed error (so never a success with empty text);
when there is such an entry (also one of size 0), the fetch-failed error is not the
answer, and, for the last such entry of the stream, the answer is the buffer after the
one `Read` call as text when content sniffing reports an unknown type and the
unsupported-type error when it reports a known type; that buffer is the entry's bytes
when the entry has as many bytes as its header's size says and the call delivers them
all. -/
lemma GetContent_entry (params : ContentParams) (env : ContentEnv) (out : TarStream)
    (hsize : (env.ContainerStatPath params.Md5 params.File).1 < 1048576)
    (hcopy : env.CopyFromContainer params.Md5 params.File = .ok out) :
    ((∀ file ∈ out.entries,
          ¬ (file.Typeflag = TypeReg ∧ file.Name = filepathBase params.File)) →
        (GetContent true params env).response = .jsonError (.New "获取文件失败") 500 ∧
        (GetContent true params env).response ≠ .content []) ∧
    ((∃ file ∈ out.entries,
          file.Typeflag = TypeReg ∧ file.Name = filepathBase params.File) →
        ∃ file ∈ out.entries,
          (file.Typeflag = TypeReg ∧ file.Name = filepathBase params.File) ∧
          (out.entries.filter (isWanted (filepathBase params.File))).getLast? = some file ∧
          (GetContent true params env).response ≠ .jsonError (.New "获取文件失败") 500 ∧
          (env.MatchUnknown (readInto file (env.Read file)) = true →
            (GetContent true params env).response =
              .content (readInto file (env.Read file))) ∧
          (env.MatchUnknown (readInto file (env.Read file)) = false →
            (GetContent true params env).response =
              .jsonError (.New "文件类型不支持在线编辑") 500) ∧
          (file.Data.length = file.Size.toNat → file.Size.toNat ≤ env.Read file →
            readInto file (env.Read file) = file.Data)) := by
  have h1 : ¬ (env.ContainerStatPath params.Md5 params.File).1 ≥ 1024 * 1024 := by
    have : (1024 : Int) * 1024 = 1048576 := by norm_num
    omega
  have hwanted : ∀ file : TarEntry, isWanted (filepathBase params.File) file = true ↔
      (file.Typeflag = TypeReg ∧ file.Name = filepathBase params.File) := by
    intro file
    simp [isWanted]
  have hrun : (GetContent true params env).response =
      match contentLoop (filepathBase params.File) env.Read out.entries none with
      | none => .jsonError (.New "获取文件失败") 500
      | some content =>
        if env.MatchUnknown content then .content content
        else .jsonError (.New "文件类型不支持在线编辑") 500 := by
    unfold GetContent
    simp only [Bool.not_true, Bool.false_eq_true, if_false]
    rw [if_neg h1, hcopy]
    simp only
    split
    · rfl
    · split <;> rfl
  rw [hrun, contentLoop_eq]
  refine ⟨fun hnone => ?_, fun hsome => ?_⟩
  · have hf : List.filter (isWanted (filepathBase params.File)) out.entries = [] := by
      rw [List.filter_eq_nil_iff]
      intro file hmem
      rw [hwanted]
      exact hnone file hmem
    rw [hf]
    exact ⟨rfl, by simp⟩
  · have hne : List.filter (isWanted (filepathBase params.File)) out.entries ≠ [] := by
      obtain ⟨file, hmem, hw⟩ := hsome
      intro hnil
      rw [List.filter_eq_nil_iff] at hnil
      exact hnil file hmem ((hwanted file).mpr hw)
    have hlast := List.getLast?_eq_getLast _ hne
    have hmemf := List.getLast_mem hne
    rw [List.mem_filter] at hmemf
    generalize (List.filter (isWanted (filepathBase params.File)) out.entries).getLast hne =
      file at hlast hmemf
    rw [hlast]
    simp only [Option.map_some', Option.or_some]
    refine ⟨file, hmemf.1, (hwanted _).mp hmemf.2, rfl, ?_, ?_, ?_, readInto_full _ _⟩
    · split
      · exact fun h => Response.noConfusion h
      · decide
    · intro hu
      simp only [hu, if_true]
    · intro hu
      simp only [hu, Bool.false_eq_true, if_false]

/-- A run with a whole read: `/etc/hosts` is copied out as the one regular entry `hosts`
holding the bytes `hi`; the sniffer knows no type for them and the answer is the text
`hi`. -/
lemma GetContent_entry_run :
    (GetContent true ⟨"c1", "/etc/hosts"⟩ (contentEnv 2)).response = .content [104, 105] := by
  decide

/-- C10, the failing run: `/etc/hosts` holds the six bytes of `hello` and a newline and
is under the size limit; its tar entry `hosts` is found, the one `Read` call delivers
three bytes, and `GetContent` answers with success the text `hel` followed by three zero
bytes, which is not the entry's bytes. -/
theorem GetContent_short_read :
    shortReadEnv.CopyFromContainer "c1" "/etc/hosts" =
        .ok ⟨[⟨TypeReg, "hosts", 6, 1714550400, [104, 101, 108, 108, 111, 10]⟩], EOF⟩ ∧
      (GetContent true ⟨"c1", "/etc/hosts"⟩ shortReadEnv).response =
        .content [104, 101, 108, 0, 0, 0] ∧
      (GetContent true ⟨"c1", "/etc/hosts"⟩ shortReadEnv).response ≠
        .content [104, 101, 108, 108, 111, 10] :=
  ⟨rfl, by decide, by decide⟩

/-! ## C6: streaming errors during an export -/

/-- The loop over one tar stream makes `CreateHeader` and `CopyEntry` calls only. -/
lemma exportEntries_calls (entries : List TarEntry) :
    ∀ c ∈ exportEntries entries, (∃ header, c = .CreateHeader header) ∨
      (∃ data, c = .CopyEntry data) := by
  induction entries with
  | nil => simp [exportEntries]
  | cons file rest ih =>
    unfold exportEntries
    split
    · intro c hc
      simp only [List.mem_cons] at hc
      rcases hc with rfl | rfl | hc
      · exact Or.inl ⟨_, rfl⟩
      · exact Or.inr ⟨_, rfl⟩
      · exact ih c hc
    · exact ih

/-- The loop over the paths never sends the file. -/
lemma exportLoop_no_SendFile (copy : Nat → String → String → Except Error TarStream)
    (md5 name : String) (paths : List String) (i : Nat) :
    Call.SendFile name ∉ (exportLoop copy md5 i paths).1 := by
  induction paths generalizing i with
  | nil => simp [exportLoop]
  | cons path rest ih =>
    unfold exportLoop
    split
    · simp
    · simp only [List.mem_cons, List.mem_append, not_or]
      refine ⟨by simp, fun h => ?_, by simp, ih (i + 1)⟩
      rcases exportEntries_calls _ _ h with ⟨_, h⟩ | ⟨_, h⟩ <;> simp at h

/-- The loop over the paths ends with the error of the first `CopyFromContainer` that
fails, when one does. -/
lemma exportLoop_error (copy : Nat → String → String → Except Error TarStream)
    (md5 : String) (paths : List String) (i : Nat)
    (h : ∃ k path err, paths[k]? = some path ∧ copy (i + k) md5 path = .error err) :
    ∃ err, (exportLoop copy md5 i paths).2 = some err := by
  induction paths generalizing i with
  | nil => simp at h
  | cons path rest ih =>
    unfold exportLoop
    split
    · exact ⟨_, rfl⟩
    · rename_i out hout
      obtain ⟨k, p, err, hk, he⟩ := h
      cases k with
      | zero =>
        simp only [List.getElem?_cons_zero, Option.some.injEq] at hk
        subst hk
        rw [Nat.add_zero, hout] at he
        exact absurd he (by simp)
      | succ k =>
        simp only [List.getElem?_cons_succ] at hk
        exact ih (i + 1) ⟨k, p, err, hk, by rw [← he]; congr 1; omega⟩

/-- The loop over the paths does not read the error that ends a tar stream. -/
lemma exportLoop_withCleanEnd (env : ExportEnv) (md5 : String) (paths : List String)
    (i : Nat) :
    exportLoop (withCleanEnd env).CopyFromContainer md5 i paths =
      exportLoop env.CopyFromContainer md5 i paths := by
  induction paths generalizing i with
  | nil => rfl
  | cons path rest ih =>
    unfold exportLoop
    rw [ih (i + 1)]
    simp only [withCleanEnd]
    cases env.CopyFromContainer i md5 path <;> rfl

/-- C6, as amended: for every export request, if the runtime reports an error when the
copy-out of any requested path is opened, `Export` aborts with that kind of error and the
zip file is never sent to the caller; an error met while a tar stream is read ends the
reading of that stream exactly as its clean end does, the run being the same as with all
streams ending cleanly. -/
theorem Export_aborts_on_copy_error (params : ExportParams) (env : ExportEnv) :
    ((∃ k path err, params.FileList[k]? = some path ∧
          env.CopyFromContainer k params.Md5 path = .error err) →
        (∃ err, (Export true params env).response = .jsonError (.returned err) 500) ∧
        ∀ name, Call.SendFile name ∉ (Export true params env).trace) ∧
    Export true params env = Export true params (withCleanEnd env) := by
  refine ⟨fun h => ?_, ?_⟩
  · obtain ⟨err, he⟩ := exportLoop_error env.CopyFromContainer params.Md5 params.FileList 0
      (by simpa using h)
    have hno := exportLoop_no_SendFile env.CopyFromContainer params.Md5
    simp only [Export, Bool.not_true, Bool.false_eq_true, if_false, he]
    refine ⟨⟨err, rfl⟩, fun name => ?_⟩
    simp only [List.mem_cons, List.mem_append, List.mem_singleton, not_or]
    exact ⟨by simp, hno name _ _, by simp⟩
  · simp only [Export, exportLoop_withCleanEnd]
    rfl

/-- C6, witness: `/nowhere` cannot be opened, so the export of `/var/log` and `/nowhere`
aborts with the runtime's error and sends nothing. -/
theorem Export_aborts_on_copy_error_witness :
    (∃ err, (Export true ⟨"c1", ["/var/log", "/nowhere"]⟩ exportEnv).response =
        .jsonError (.returned err) 500) ∧
      ∀ name, Call.SendFile name ∉ (Export true ⟨"c1", ["/var/log", "/nowhere"]⟩ exportEnv).trace :=
  (Export_aborts_on_copy_error ⟨"c1", ["/var/log", "/nowhere"]⟩ exportEnv).1
    ⟨1, "/nowhere", "no such file", rfl, rfl⟩

/-- C6, counterexample: the tar stream of `/var/log` ends with the read error
`unexpected EOF`, not `io.EOF`; `Export` does not abort, it closes the zip file holding
the entries read so far and sends it. -/
theorem Export_sends_zip_after_read_error :
    brokenStreamEnv.CopyFromContainer 0 "c1" "/var/log" =
        .ok ⟨[⟨TypeDir, "log/", 0, 1714550400, []⟩,
          ⟨TypeReg, "log/a.txt", 2, 1714550401, [104, 105]⟩], "unexpected EOF"⟩ ∧
      "unexpected EOF" ≠ EOF ∧
      (Export true ⟨"c1", ["/var/log"]⟩ brokenStreamEnv).response = .file "/tmp/dpanel1" ∧
      Call.SendFile "/tmp/dpanel1" ∈ (Export true ⟨"c1", ["/var/log"]⟩ brokenStreamEnv).trace :=
  ⟨rfl, by decide, by decide, by decide⟩

/-! ## C9: the entries of the exported zip file -/

/-- The `case` of the switch on `file.Typeflag`, spelled out. -/
lemma isExportedType_iff (typeflag : Nat) :
    isExportedType typeflag = true ↔
      (typeflag = TypeReg ∨ typeflag = TypeRegA ∨ typeflag = TypeDir ∨
        typeflag = TypeGNUSparse) := by
  unfold isExportedType
  simp only [Bool.or_eq_true, beq_iff_eq]
  tauto

/-- The zip entry written for one exported tar entry: opened with the header built from
it, then filled by `io.Copy` with the bytes of the entry. -/
lemma zipStep_entry (entries : List ZipFileEntry) (file : TarEntry) (rest : List Call) :
    (Call.CreateHeader (zipHeaderOf file) :: Call.CopyEntry file.Data :: rest).foldl
        zipStep entries =
      rest.foldl zipStep (writeEntry (createEntry (zipHeaderOf file)) file.Data :: entries) :=
  rfl

/-- The zip writer after the loop over one tar stream: one entry per exported tar entry,
the last one first. -/
lemma foldl_zipStep_exportEntries (tarEntries : List TarEntry) (entries : List ZipFileEntry) :
    (exportEntries tarEntries).foldl zipStep entries =
      ((tarEntries.filter (fun file => isExportedType file.Typeflag)).map
        (fun file => writeEntry (createEntry (zipHeaderOf file)) file.Data)).reverse ++
          entries := by
  induction tarEntries generalizing entries with
  | nil => rfl
  | cons file rest ih =>
    unfold exportEntries
    by_cases h : isExportedType file.Typeflag = true
    · simp only [h, if_true, List.filter_cons, List.map_cons, List.reverse_cons,
        List.append_assoc, List.singleton_append]
      rw [zipStep_entry, ih]
    · simp only [h, if_false, List.filter_cons]
      exact ih entries

/-- When every copy-out opens, the loop over the paths ends without error and leaves in
the zip writer the entries of the streams in path order, the last one first. -/
lemma foldl_zipStep_exportLoop (copy : Nat → String → String → Except Error TarStream)
    (md5 : String) (paths : List String) (i : Nat) (outs : List TarStream)
    (entries : List ZipFileEntry)
    (h : List.Forall₂ (fun (ip : Nat × String) out => copy ip.1 md5 ip.2 = .ok out)
      (paths.enumFrom i) outs) :
    (exportLoop copy md5 i paths).2 = none ∧
      (exportLoop copy md5 i paths).1.foldl zipStep entries =
        ((outs.map (fun out =>
          (out.entries.filter (fun file => isExportedType file.Typeflag)).map
            (fun file => writeEntry (createEntry (zipHeaderOf file)) file.Data))).flatten).reverse
          ++ entries := by
  induction paths generalizing i outs entries with
  | nil =>
    cases h
    exact ⟨rfl, rfl⟩
  | cons path rest ih =>
    rw [List.enumFrom_cons] at h
    cases h with
    | cons hhead htail =>
      rename_i out outs
      have hhead : copy i md5 path = .ok out := hhead
      unfold exportLoop
      rw [hhead]
      refine ⟨(ih (i + 1) outs entries htail).1, ?_⟩
      simp only [List.foldl_cons, List.foldl_append, zipStep, List.map_cons, List.flatten_cons,
        List.reverse_append, List.append_assoc]
      rw [foldl_zipStep_exportEntries, (ih (i + 1) outs _ htail).2]

/-- The zip file of a whole run is what the loop over the paths leaves in the zip writer
when it ends without error. -/
lemma zipFile_Export (params : ExportParams) (env : ExportEnv)
    (h : (exportLoop env.CopyFromContainer params.Md5 0 params.FileList).2 = none) :
    zipFile (Export true params env).trace =
      ((exportLoop env.CopyFromContainer params.Md5 0 params.FileList).1.foldl
        zipStep []).reverse := by
  unfold zipFile
  simp only [Export, Bool.not_true, Bool.false_eq_true, if_false, h]
  split <;> simp [List.foldl_append, zipStep]

/-- The zip entry written for a tar entry keeps its name, size, time and bytes, when the
entry carries the bytes of its size and is of size 0 if it is a directory or is named
with a trailing `/`. -/
lemma writeEntry_KeepsEntry (file : TarEntry)
    (hexp : isExportedType file.Typeflag = true) (hcarry : carriesItsSize file)
    (hdir : (file.Typeflag = TypeDir ∨ HasSuffix file.Name "/" = true) → file.Size = 0) :
    KeepsEntry file (writeEntry (createEntry (zipHeaderOf file)) file.Data) := by
  obtain ⟨⟨h0, h1⟩, hdata⟩ := hcarry
  have hlen : ((file.Data.length : Nat) : Int) = file.Size := by
    by_cases hd : file.Typeflag = TypeDir
    · have hs := hdir (Or.inl hd)
      rw [hdata, hd, hs]
      rfl
    · have hno : isHeaderOnlyType file.Typeflag = false := by
        rcases (isExportedType_iff _).mp hexp with h | h | h | h
        · rw [h]; rfl
        · rw [h]; rfl
        · exact absurd h hd
        · rw [h]; rfl
      rw [hdata, hno]
      simp only [Bool.false_eq_true, if_false]
      exact Int.toNat_of_nonneg h0
  cases hs : HasSuffix file.Name "/" with
  | true =>
    have hz := hdir (Or.inr hs)
    have hnil : file.Data = [] := by
      apply List.eq_nil_of_length_eq_zero
      have : ((file.Data.length : Nat) : Int) = 0 := by rw [hlen, hz]
      exact_mod_cast this
    have hw : writeEntry (createEntry (zipHeaderOf file)) file.Data =
        { Name := file.Name, Method := 0, UncompressedSize64 := 0,
          Modified := file.ModTime, Data := [] } := by
      simp [writeEntry, createEntry, zipHeaderOf, hs]
    rw [hw]
    exact ⟨rfl, by rw [hz]; rfl, rfl, hnil.symm⟩
  | false =>
    have hw : writeEntry (createEntry (zipHeaderOf file)) file.Data =
        { Name := file.Name, Method := 8, UncompressedSize64 := file.Data.length,
          Modified := file.ModTime, Data := file.Data } := by
      simp [writeEntry, createEntry, zipHeaderOf, hs]
    rw [hw]
    exact ⟨rfl, hlen, rfl, rfl⟩

/-- Mapping each stream's exported entries to zip entries and concatenating is mapping
the concatenation. -/
lemma flatten_map_written (outs : List TarStream) (w : TarEntry → ZipFileEntry) :
    (outs.map (fun out =>
      (out.entries.filter (fun file => isExportedType file.Typeflag)).map w)).flatten =
      (regularDirSparse outs).map w := by
  have hfilter : (fun file : TarEntry => isExportedType file.Typeflag) =
      (fun file => decide (file.Typeflag = TypeReg ∨ file.Typeflag = TypeRegA ∨
        file.Typeflag = TypeDir ∨ file.Typeflag = TypeGNUSparse)) := by
    funext file
    rw [Bool.eq_iff_iff, isExportedType_iff]
    simp
  unfold regularDirSparse
  rw [hfilter]
  induction outs with
  | nil => rfl
  | cons out rest ih =>
    simp only [List.map_cons, List.flatten_cons, List.map_append]
    rw [ih]

/-- C9, as amended: for every ordered list of paths whose copy-outs all open and whose
tar streams all read cleanly, and in which every directory entry and every entry named
with a trailing `/` has size 0 in its header, the entries of the zip file `Export` writes
correspond one to one, in order, to the concatenation in path order of each stream's
entries in stream order, restricted to the entries whose type is regular file, directory
or GNU sparse file (no other entry type gives a zip entry), and each zip entry keeps the
tar entry's name, size and modification time, and holds its bytes. -/
theorem Export_zip_entries (params : ExportParams) (env : ExportEnv) (outs : List TarStream)
    (hcopy : List.Forall₂
      (fun (ip : Nat × String) out => env.CopyFromContainer ip.1 params.Md5 ip.2 = .ok out)
      params.FileList.enum outs)
    (hclean : ∀ out ∈ outs, readsCleanly out)
    (htree : ∀ out ∈ outs, directoriesHaveNoSize out) :
    List.Forall₂ KeepsEntry (regularDirSparse outs)
      (zipFile (Export true params env).trace) := by
  obtain ⟨hnone, hfold⟩ :=
    foldl_zipStep_exportLoop env.CopyFromContainer params.Md5 params.FileList 0 outs [] hcopy
  rw [zipFile_Export params env hnone, hfold, List.append_nil, List.reverse_reverse,
    flatten_map_written, List.forall₂_map_right_iff, List.forall₂_same]
  intro file hmem
  unfold regularDirSparse at hmem
  rw [List.mem_flatten] at hmem
  obtain ⟨l, hl, hfile⟩ := hmem
  rw [List.mem_map] at hl
  obtain ⟨out, hout, rfl⟩ := hl
  rw [List.mem_filter] at hfile
  exact writeEntry_KeepsEntry file
    ((isExportedType_iff _).mpr (of_decide_eq_true hfile.2))
    ((hclean out hout).2 file hfile.1) (htree out hout file hfile.1)

/-- C9, witness: exporting `/var/log` then `/etc/hosts` writes the directory and the file
of the first stream, skips its symlink, then writes the file of the second stream. -/
theorem Export_zip_entries_witness :
    zipFile (Export true ⟨"c1", ["/var/log", "/etc/hosts"]⟩ exportEnv).trace =
        [⟨"log/", 0, 0, 1714550400, []⟩, ⟨"log/a.txt", 8, 2, 1714550401, [104, 105]⟩,
          ⟨"hosts", 8, 2, 1714550403, [104, 105]⟩] ∧
      List.Forall₂ KeepsEntry (regularDirSparse [logStream, hostsStream])
        (zipFile (Export true ⟨"c1", ["/var/log", "/etc/hosts"]⟩ exportEnv).trace) :=
  ⟨by decide,
    Export_zip_entries ⟨"c1", ["/var/log", "/etc/hosts"]⟩ exportEnv [logStream, hostsStream]
      (List.Forall₂.cons rfl (List.Forall₂.cons rfl List.Forall₂.nil)) (by decide)
      (by decide)⟩

/-- C9, counterexample: the tar stream of `/var/cache` reads cleanly and holds one
directory entry, `cache/`, with size 4096 in its header; the zip entry written for it
has size 0, so it does not keep the size of the tar entry. -/
theorem Export_directory_size_not_kept :
    directorySizeEnv.CopyFromContainer 0 "c1" "/var/cache" =
        .ok ⟨[⟨TypeDir, "cache/", 4096, 1714550400, []⟩], EOF⟩ ∧
      readsCleanly ⟨[⟨TypeDir, "cache/", 4096, 1714550400, []⟩], EOF⟩ ∧
      zipFile (Export true ⟨"c1", ["/var/cache"]⟩ directorySizeEnv).trace =
        [⟨"cache/", 0, 0, 1714550400, []⟩] ∧
      ((0 : Nat) : Int) ≠ (⟨TypeDir, "cache/", 4096, 1714550400, []⟩ : TarEntry).Size :=
  ⟨rfl, by decide, by decide, by decide⟩

/-! ## C8: removal of the temporary staging directory or file -/

/-- The last call of a trace that ends with `x`. -/
lemma getLast?_append_snoc (t closes : List Call) (x : Call) :
    (t ++ (closes ++ [x])).getLast? = some x := by
  rw [← List.append_assoc, List.getLast?_append]
  rfl

/-- The deferred calls pending after the import loop end with those pending before it. -/
lemma importLoop_deferred (env : ImportEnv) (dir : String) (files : List ImportFile)
    (i : Nat) (deferred : List Call) :
    ∃ closes, (importLoop env dir i files deferred).2.1 = closes ++ deferred := by
  induction files generalizing i deferred with
  | nil => exact ⟨[], rfl⟩
  | cons item rest ih =>
    unfold importLoop
    simp only
    split
    · exact ⟨[], rfl⟩
    · split
      · exact ⟨[_], rfl⟩
      · split
        · exact ⟨[_, _], rfl⟩
        · obtain ⟨closes, h⟩ := ih (i + 1)
            (.CloseFile (dir ++ "/" ++ item.Name) ::
              .CloseFile (env.GetRealPath item.Path) :: deferred)
          exact ⟨closes ++ [.CloseFile (dir ++ "/" ++ item.Name),
            .CloseFile (env.GetRealPath item.Path)], by rw [h]; simp⟩

/-- `Import` removes its staging directory last on every path after `os.MkdirTemp`. -/
lemma Import_removes_staging_dir (params : ImportParams) (env : ImportEnv)
    (h : env.ContainerInspect params.Md5 = none) :
    (Import true params env).trace.getLast? = some (.RemoveAll env.MkdirTemp) := by
  obtain ⟨closes, hc⟩ := importLoop_deferred env env.MkdirTemp params.FileList 0
    [.RemoveAll env.MkdirTemp]
  have hlast : ∀ t : List Call,
      (t ++ (closes ++ [Call.RemoveAll env.MkdirTemp])).getLast? =
        some (.RemoveAll env.MkdirTemp) := fun t => getLast?_append_snoc t closes _
  simp only [Import, Bool.not_true, Bool.false_eq_true, if_false, h, hc]
  split
  · exact hlast (_ :: _ :: _)
  · split
    · have := hlast (.ContainerInspect params.Md5 :: .MkdirTemp env.MkdirTemp ::
        ((importLoop env env.MkdirTemp 0 params.FileList [.RemoveAll env.MkdirTemp]).1 ++
          [.ArchiveTar env.MkdirTemp,
            .CopyToContainer params.Md5 params.DestPath env.MkdirTemp]))
      simpa using this
    · have := hlast (.ContainerInspect params.Md5 :: .MkdirTemp env.MkdirTemp ::
        ((importLoop env env.MkdirTemp 0 params.FileList [.RemoveAll env.MkdirTemp]).1 ++
          [.ArchiveTar env.MkdirTemp,
            .CopyToContainer params.Md5 params.DestPath env.MkdirTemp]))
      simpa using this

/-- `Export` removes its temporary zip file last on every path. -/
lemma Export_removes_temp_file (params : ExportParams) (env : ExportEnv) :
    (Export true params env).trace.getLast? = some (.Remove env.CreateTemp) := by
  simp only [Export, Bool.not_true, Bool.false_eq_true, if_false]
  split
  · exact getLast?_append_snoc (_ :: _) [] _
  · split
    · exact getLast?_append_snoc (_ :: _) [.ZipClose] _
    · exact getLast?_append_snoc (_ :: _) [.ZipClose, .SendFile env.CreateTemp] _

/-- `ImportFileContent` removes its staging directory last once the staged file is
written. -/
lemma ImportFileContent_removes_after_write (params : ImportContentParams)
    (env : ImportContentEnv)
    (habs : HasPrefix params.File "/" = true ∧ HasPrefix params.DestPath "/" = true)
    (hwrite : env.WriteFile (TrimSuffix env.MkdirTemp "/" ++ params.File) = none) :
    (ImportFileContent true params env).trace.getLast? = some (.RemoveAll env.MkdirTemp) := by
  simp only [ImportFileContent, Bool.not_true, Bool.false_eq_true, if_false, habs.1, habs.2,
    Bool.or_self, hwrite]
  split <;> rfl

/-- C8, the failing run: `ImportFileContent` with file `/` creates the staging directory,
fails to write the staged file and returns the error without ever removing the
directory. -/
theorem ImportFileContent_leaves_staging_dir :
    ImportFileContent true ⟨"/", "x", "c1", "/"⟩ writeFailsEnv =
        ⟨[.MkdirTemp "/tmp/dpanel-explorer1", .MkdirAllDirOf "/tmp/dpanel-explorer1/",
          .WriteFile "/tmp/dpanel-explorer1/" "x"],
          .jsonError (.returned "open /tmp/dpanel-explorer1/: is a directory") 500⟩ ∧
      Call.RemoveAll "/tmp/dpanel-explorer1" ∉
        (ImportFileContent true ⟨"/", "x", "c1", "/"⟩ writeFailsEnv).trace := by
  decide

/-! ## C11: a second owner-resolution pass -/

/-- After the loop over the identity records an entry is unchanged or owned by the
username of a record. -/
lemma applyUsers_unchanged_or_username (userList : List PasswdItem) (item : FileItem) :
    applyUsers userList item = item ∨
      ∃ u ∈ userList, (applyUsers userList item).Owner = u.Username := by
  induction userList generalizing item with
  | nil => exact Or.inl rfl
  | cons u rest ih =>
    unfold applyUsers
    by_cases hu : u.UID = item.Owner
    · simp only [hu, if_true]
      rcases ih { item with Owner := u.Username, Group := u.Username } with h | ⟨v, hv, h⟩
      · refine Or.inr ⟨u, List.mem_cons_self _ _, ?_⟩
        rw [h]
      · exact Or.inr ⟨v, List.mem_cons_of_mem _ hv, h⟩
    · simp only [hu, if_false]
      rcases ih item with h | ⟨v, hv, h⟩
      · exact Or.inl h
      · exact Or.inr ⟨v, List.mem_cons_of_mem _ hv, h⟩

/-- A second run of the loop over the identity records changes nothing on an entry
when no username of the set is a uid of the set. -/
lemma applyUsers_twice (userList : List PasswdItem) (item : FileItem)
    (h : ∀ u ∈ userList, ∀ v ∈ userList, v.UID ≠ u.Username) :
    applyUsers userList (applyUsers userList item) = applyUsers userList item := by
  rcases applyUsers_unchanged_or_username userList item with h1 | ⟨u, hu, h1⟩
  · rw [h1]
    exact h1
  · exact applyUsers_no_record userList _ (fun v hv => by rw [h1]; exact h u hu v hv)

/-- With no mount and no diff record the handler answers the owner-resolution pass over
the base listing. -/
lemma GetPathList_ownerPass (params : PathListParams) (env : PathListEnv)
    (userList : List PasswdItem) (result : List FileItem)
    (hmounts : env.ContainerInspect params.Md5 = .ok [])
    (hexp : env.NewExplorer params.Md5 = none)
    (hbase : env.GetListByPath params.Md5 params.Path = .ok result)
    (hne : result ≠ [])
    (hdiff : (env.ContainerDiff params.Md5).1 = [])
    (husers : env.GetPasswd params.Md5 = .ok userList) :
    (GetPathList true params env).response = .list (ownerPass userList result) := by
  have hemp : IsEmptyArray result = false := by
    cases result with
    | nil => exact absurd rfl hne
    | cons a l => rfl
  simp only [GetPathList, Bool.not_true, Bool.false_eq_true, if_false, hmounts, hexp, hbase,
    hemp, husers, hdiff]
  rfl

/-- C11, as amended: for every listing and every identity set in which no username is
also the uid of a record, applying the owner-resolution pass of `GetPathList` a second
time with the same identity set to the result of the first pass changes no entry, so no
owner and no group field. -/
theorem ownerPass_idempotent (userList : List PasswdItem) (result : List FileItem)
    (h : ∀ u ∈ userList, ∀ v ∈ userList, v.UID ≠ u.Username) :
    ownerPass userList (ownerPass userList result) = ownerPass userList result := by
  unfold ownerPass
  rw [List.map_map]
  apply List.map_congr_left
  intro item _
  exact applyUsers_twice userList item h

/-- C11, witness: with the one record `(uid = 33, username = www-data)` a second pass
over the resolved listing changes nothing. -/
theorem ownerPass_idempotent_witness :
    ownerPass [⟨"www-data", "33"⟩] [entry "/data/a" 0 "33", entry "/etc/hosts" 0 "9999"] =
        [entry "/data/a" 0 "www-data", entry "/etc/hosts" 0 "9999"] ∧
      ownerPass [⟨"www-data", "33"⟩]
          (ownerPass [⟨"www-data", "33"⟩]
            [entry "/data/a" 0 "33", entry "/etc/hosts" 0 "9999"]) =
        ownerPass [⟨"www-data", "33"⟩] [entry "/data/a" 0 "33", entry "/etc/hosts" 0 "9999"] :=
  ⟨by decide,
    ownerPass_idempotent [⟨"www-data", "33"⟩]
      [entry "/data/a" 0 "33", entry "/etc/hosts" 0 "9999"] (by decide)⟩

/-- C11, counterexample: the identity set holds `(uid = 1001, app)` and
`(uid = 1000, username 1001)`; the first pass turns the owner `1000` into `1001`, the
second pass turns that owner and the group into `app`. -/
theorem ownerPass_second_pass_changes_owner :
    ownerPass chainedUsers [entry "/srv/app" 0 "1000"] = [entry "/srv/app" 0 "1001"] ∧
      ownerPass chainedUsers (ownerPass chainedUsers [entry "/srv/app" 0 "1000"]) =
        [entry "/srv/app" 0 "app"] ∧
      (entry "/srv/app" 0 "app").Owner ≠ (entry "/srv/app" 0 "1001").Owner ∧
      (entry "/srv/app" 0 "app").Group ≠ (entry "/srv/app" 0 "1001").Group := by
  decide

/-! ## C12: `PortItem.Parse` is total and idempotent -/

/-- One step of the split loop for a separator of one character. -/
lemma splitLoop_single_cons (c a : Char) (rest piece : List Char) :
    splitLoop [c] (a :: rest) 0 piece =
      if c = a then piece.reverse :: splitLoop [c] rest 0 []
      else splitLoop [c] rest 0 (a :: piece) := by
  simp [splitLoop, List.isPrefixOf]

/-- The split loop yields at least one piece. -/
lemma splitLoop_single_length_pos (c : Char) (l piece : List Char) :
    1 ≤ (splitLoop [c] l 0 piece).length := by
  induction l generalizing piece with
  | nil => simp [splitLoop]
  | cons a rest ih =>
    rw [splitLoop_single_cons]
    split
    · simp
    · exact ih _

/-- A text holding the separator splits into at least two pieces. -/
lemma splitLoop_single_length (c : Char) (l piece : List Char) (h : c ∈ l) :
    2 ≤ (splitLoop [c] l 0 piece).length := by
  induction l generalizing piece with
  | nil => simp at h
  | cons a rest ih =>
    rw [splitLoop_single_cons]
    by_cases hc : c = a
    · simp only [hc, if_true, List.length_cons]
      have := splitLoop_single_length_pos a rest []
      omega
    · simp only [hc, if_false]
      rcases List.mem_cons.mp h with h | h
      · exact absurd h hc
      · exact ih _ h

/-- No piece of a split holds the separator. -/
lemma splitLoop_single_pieces (c : Char) (l piece : List Char) (h : c ∉ piece) :
    ∀ x ∈ splitLoop [c] l 0 piece, c ∉ x := by
  induction l generalizing piece with
  | nil =>
    intro x hx
    simp only [splitLoop, List.mem_singleton] at hx
    subst hx
    simpa using h
  | cons a rest ih =>
    rw [splitLoop_single_cons]
    by_cases hc : c = a
    · simp only [hc, if_true, List.mem_cons]
      rintro x (rfl | hx)
      · subst hc
        simpa using h
      · subst hc
        exact ih [] (by simp) x hx
    · simp only [hc, if_false]
      exact ih (a :: piece) (by
        simp only [List.mem_cons, not_or]
        exact ⟨hc, h⟩)

/-- `strings.Contains(s, ":")` holds exactly when `s` holds the character `:`. -/
lemma Contains_colon (s : String) : Contains s ":" = true ↔ ':' ∈ s.toList := by
  unfold Contains
  exact any_tails_singleton ':' s.toList

/-- `strings.Split(s, ":")` of a text holding `:` has a first and a second piece, and
the second piece holds no `:`. -/
lemma Split_colon (s : String) (h : ':' ∈ s.toList) :
    2 ≤ (Split s ":").length ∧
      ∃ hostIp host, (Split s ":")[0]? = some hostIp ∧ (Split s ":")[1]? = some host ∧
        ':' ∉ host.toList := by
  have hsplit : Split s ":" = (splitLoop [':'] s.toList 0 []).map String.mk := by
    unfold Split
    rw [if_neg (by decide)]
    rfl
  have hlen := splitLoop_single_length ':' s.toList [] h
  have hpieces := splitLoop_single_pieces ':' s.toList [] (by simp)
  rw [hsplit]
  generalize splitLoop [':'] s.toList 0 [] = pieces at hlen hpieces
  match pieces, hlen, hpieces with
  | a :: b :: rest, _, hpieces =>
    refine ⟨by simp, String.mk a, String.mk b, by simp, by simp, ?_⟩
    exact hpieces b (by simp)

/-- C12: `PortItem.Parse` is total and idempotent: for every `PortItem` it returns a
result without an index out of range (a `Host` holding `:` splits into at least two
parts), parsing the result again returns the result itself, the `Host` of the result
holds no `:` when the input `Host` did, and the `Protocol` of the result is never
empty. -/
theorem Parse_total_idempotent (p : PortItem) :
    ∃ q, p.Parse = some q ∧ q.Parse = some q ∧
      p.Parse.bind PortItem.Parse = p.Parse ∧
      (Contains p.Host ":" = true →
        2 ≤ (Split p.Host ":").length ∧ Contains q.Host ":" = false) ∧
      q.Protocol ≠ "" := by
  suffices hmain : ∃ q, p.Parse = some q ∧ q.Parse = some q ∧
      (Contains p.Host ":" = true →
        2 ≤ (Split p.Host ":").length ∧ Contains q.Host ":" = false) ∧
      q.Protocol ≠ "" by
    obtain ⟨q, h1, h2, h3, h4⟩ := hmain
    refine ⟨q, h1, h2, ?_, h3, h4⟩
    rw [h1, Option.some_bind]
    exact h2
  have hfinish : ∀ r : PortItem, Contains r.Host ":" = false →
      ∃ q, (if r.Protocol = "" then some { r with Protocol := "tcp" } else some r) = some q ∧
        q.Parse = some q ∧ q.Host = r.Host ∧ q.Protocol ≠ "" := by
    intro r hr
    by_cases hp : r.Protocol = ""
    · have htcp : ("tcp" : String) ≠ "" := by decide
      refine ⟨{ r with Protocol := "tcp" }, by rw [if_pos hp], ?_, rfl, htcp⟩
      simp only [PortItem.Parse, hr, Bool.false_eq_true, if_false]
      rw [if_neg htcp]
    · refine ⟨r, by rw [if_neg hp], ?_, rfl, hp⟩
      simp only [PortItem.Parse, hr, Bool.false_eq_true, if_false]
      rw [if_neg hp]
  by_cases hc : Contains p.Host ":" = true
  · obtain ⟨hlen, hostIp, host, h0, h1, hhost⟩ := Split_colon p.Host ((Contains_colon _).mp hc)
    have hhost' : Contains host ":" = false := by
      rw [← Bool.not_eq_true, Contains_colon]
      exact hhost
    obtain ⟨q, hq, hqq, hqh, hqp⟩ := hfinish
      { HostIp := hostIp, Host := host, Dest := p.Dest, Protocol := p.Protocol } hhost'
    refine ⟨q, ?_, hqq, fun _ => ⟨hlen, by rw [hqh]; exact hhost'⟩, hqp⟩
    simp only [PortItem.Parse, hc, if_true, h0, h1]
    exact hq
  · have hc' : Contains p.Host ":" = false := by
      rw [← Bool.not_eq_true]
      exact hc
    obtain ⟨q, hq, hqq, -, hqp⟩ := hfinish p hc'
    refine ⟨q, ?_, hqq, fun h => absurd h hc, hqp⟩
    simp only [PortItem.Parse, hc', Bool.false_eq_true, if_false]
    exact hq

/-- C12, a concrete run: `127.0.0.1:8080` is split into host address and port, the empty
protocol becomes `tcp`, and parsing the result again returns it unchanged. -/
theorem Parse_total_idempotent_run :
    PortItem.Parse ⟨"", "127.0.0.1:8080", "80", ""⟩ =
        some ⟨"127.0.0.1", "8080", "80", "tcp"⟩ ∧
      PortItem.Parse ⟨"127.0.0.1", "8080", "80", "tcp"⟩ =
        some ⟨"127.0.0.1", "8080", "80", "tcp"⟩ := by
  decide

end Dpanel
